import Mathlib

/-!
Verification of the NordHHub data-to-model compilation pipeline.

This file gives a shallow embedding, in Lean 4, of the parameter-extraction
passes of `scr/core/data_loading.py` and `scr/core/param_table.py`, and of the
constraint families declared by `build_base_model_with_cz` in
`scr/core/model.py`.  Python dictionaries are embedded as association lists
with python-`dict` update semantics (`dinsert` replaces in place, `dsetd`
mirrors `dict.setdefault`), floats are embedded as rationals, and each
mutating loop of the source is embedded as a `List.foldl` over the same
iteration ranges.  Theorems about these definitions settle the behavioural
claims made by the specification.
-/

set_option autoImplicit false

namespace NordHHub

/-! ## Association-list dictionaries (python `dict` embedding) -/

variable {κ : Type} {α : Type}

/-- Lookup of key `k`: the value of the first entry whose key is `k`
(python `d.get(k)` / `d[k]`). -/
def dlookup [DecidableEq κ] : List (κ × α) → κ → Option α
  | [], _ => none
  | (k0, v) :: t, k => if k = k0 then some v else dlookup t k

/-- Lookup with default (python `d.get(k, dflt)`). -/
def dgetD [DecidableEq κ] (m : List (κ × α)) (k : κ) (dflt : α) : α :=
  (dlookup m k).getD dflt

/-- Assignment `d[k] = v`: replace the first entry for `k` in place, or
append a new entry (python `dict` insertion-order update semantics). -/
def dinsert [DecidableEq κ] : List (κ × α) → κ → α → List (κ × α)
  | [], k, v => [(k, v)]
  | (k0, w) :: t, k, v => if k = k0 then (k, v) :: t else (k0, w) :: dinsert t k v

/-- Python `d.setdefault(k, v)`: insert only when the key is absent. -/
def dsetd [DecidableEq κ] (m : List (κ × α)) (k : κ) (v : α) : List (κ × α) :=
  match dlookup m k with
  | some _ => m
  | none => m ++ [(k, v)]

theorem dlookup_dinsert_self [DecidableEq κ] (m : List (κ × α)) (k : κ) (v : α) :
    dlookup (dinsert m k v) k = some v := by
  induction m with
  | nil => simp [dinsert, dlookup]
  | cons p t ih =>
    obtain ⟨k0, w⟩ := p
    by_cases h : k = k0
    · simp [dinsert, dlookup, h]
    · simp [dinsert, dlookup, h, ih]

theorem dlookup_dinsert_ne [DecidableEq κ] (m : List (κ × α)) (k k' : κ) (v : α)
    (h : k' ≠ k) : dlookup (dinsert m k v) k' = dlookup m k' := by
  induction m with
  | nil => simp [dinsert, dlookup, h]
  | cons p t ih =>
    obtain ⟨k0, w⟩ := p
    by_cases hk : k = k0
    · subst hk
      simp [dinsert, dlookup, h]
    · by_cases hk' : k' = k0
      · simp [dinsert, dlookup, hk, hk']
      · simp [dinsert, dlookup, hk, hk', ih]

theorem dlookup_append [DecidableEq κ] (m n : List (κ × α)) (k : κ) :
    dlookup (m ++ n) k = ((dlookup m k).rec (dlookup n k) fun v => some v) := by
  induction m with
  | nil => simp [dlookup]
  | cons p t ih =>
    obtain ⟨k0, w⟩ := p
    by_cases h : k = k0
    · simp [dlookup, h]
    · simp [dlookup, h, ih]

theorem dlookup_dsetd_of_some [DecidableEq κ] (m : List (κ × α)) (k k' : κ) (v w : α)
    (h : dlookup m k = some w) : dlookup (dsetd m k' v) k = some w := by
  unfold dsetd
  cases hl : dlookup m k' with
  | some _ => exact h
  | none =>
    rw [dlookup_append, h]

theorem dlookup_dsetd_self_of_none [DecidableEq κ] (m : List (κ × α)) (k : κ) (v : α)
    (h : dlookup m k = none) : dlookup (dsetd m k v) k = some v := by
  unfold dsetd
  rw [h, dlookup_append, h]
  simp [dlookup]

theorem dlookup_dsetd_ne [DecidableEq κ] (m : List (κ × α)) (k k' : κ) (v : α)
    (h : k' ≠ k) : dlookup (dsetd m k v) k' = dlookup m k' := by
  unfold dsetd
  cases hl : dlookup m k with
  | some _ => rfl
  | none =>
    rw [dlookup_append]
    cases hm : dlookup m k' with
    | some w => rfl
    | none => simp [dlookup, h]

/-! ## Generic fold lemmas

The extraction passes are sequential dictionary-mutating loops; these lemmas
carry an invariant through a `List.foldl`, or thread a precondition `P` up to
a designated element and a postcondition `Q` past it. -/

theorem foldl_preserve {β γ : Type} (P : γ → Prop) (step : γ → β → γ) :
    ∀ (l : List β), (∀ x ∈ l, ∀ s, P s → P (step s x)) →
      ∀ s, P s → P (l.foldl step s)
  | [], _, _, hs => hs
  | x :: t, h, s, hs =>
    foldl_preserve P step t (fun z hz => h z (List.mem_cons_of_mem x hz))
      (step s x) (h x (List.mem_cons_self x t) s hs)

/-- Thread `P` through a fold until the (unique, by `Nodup`) occurrence of
`tgt`, transition to `Q` there, and keep `Q` afterwards. -/
theorem foldl_through {β γ : Type} (P Q : γ → Prop) (step : γ → β → γ) (tgt : β) :
    ∀ (l : List β), tgt ∈ l → l.Nodup →
      (∀ x ∈ l, x ≠ tgt → ∀ s, P s → P (step s x)) →
      (∀ s, P s → Q (step s tgt)) →
      (∀ x ∈ l, x ≠ tgt → ∀ s, Q s → Q (step s x)) →
      ∀ s, P s → Q (l.foldl step s)
  | [], hmem, _, _, _, _, _, _ => absurd hmem (List.not_mem_nil tgt)
  | x :: t, hmem, hnd, hP, hT, hQ, s, hs => by
    by_cases hx : x = tgt
    · subst hx
      have hxt : x ∉ t := (List.nodup_cons.mp hnd).1
      refine foldl_preserve Q step t ?_ (step s x) (hT s hs)
      intro z hz s' hs'
      exact hQ z (List.mem_cons_of_mem x hz) (fun he => hxt (he ▸ hz)) s' hs'
    · have hmem' : tgt ∈ t := by
        rcases List.mem_cons.mp hmem with h | h
        · exact absurd h.symm hx
        · exact h
      exact foldl_through P Q step tgt t hmem' (List.nodup_cons.mp hnd).2
        (fun z hz hzt => hP z (List.mem_cons_of_mem x hz) hzt)
        hT
        (fun z hz hzt => hQ z (List.mem_cons_of_mem x hz) hzt)
        (step s x) (hP x (List.mem_cons_self x t) hx s hs)

/-- Variant without `Nodup`: `P` and `Q` are preserved by every step, and the
step at `tgt` turns `P` into `Q`. -/
theorem foldl_through_all {β γ : Type} (P Q : γ → Prop) (step : γ → β → γ) (tgt : β) :
    ∀ (l : List β), tgt ∈ l →
      (∀ x ∈ l, ∀ s, P s → P (step s x)) →
      (∀ s, P s → Q (step s tgt)) →
      (∀ x ∈ l, ∀ s, Q s → Q (step s x)) →
      ∀ s, P s → Q (l.foldl step s)
  | [], hmem, _, _, _, _, _ => absurd hmem (List.not_mem_nil tgt)
  | x :: t, hmem, hP, hT, hQ, s, hs => by
    by_cases hx : x = tgt
    · subst hx
      refine foldl_preserve Q step t ?_ (step s x) (hT s hs)
      intro z hz s' hs'
      exact hQ z (List.mem_cons_of_mem x hz) s' hs'
    · have hmem' : tgt ∈ t := by
        rcases List.mem_cons.mp hmem with h | h
        · exact absurd h.symm hx
        · exact h
      exact foldl_through_all P Q step tgt t hmem'
        (fun z hz => hP z (List.mem_cons_of_mem x hz))
        hT
        (fun z hz => hQ z (List.mem_cons_of_mem x hz))
        (step s x) (hP x (List.mem_cons_self x t) s hs)

/-! ## String normalization (python `.strip()`, `.lower()`, `.upper()`)

Character-level definitions are used (rather than `String.trim` etc.) so that
the kernel can evaluate them on the concrete witnesses below. -/

/-- Python `str.lower()`. -/
def strLower (s : String) : String := String.mk (s.data.map Char.toLower)

/-- Python `str.upper()`. -/
def strUpper (s : String) : String := String.mk (s.data.map Char.toUpper)

/-- Python `str.strip()`. -/
def strTrim (s : String) : String :=
  String.mk (((s.data.dropWhile Char.isWhitespace).reverse.dropWhile Char.isWhitespace).reverse)

/-! ## Penalty fallback chain (`param_table.py`, `penalty_value`) -/

/-- `param_table.norm`: `_clean_str` strips whitespace and maps blank-like
values to the empty string. -/
def normKey (s : String) : String := strTrim s

/-- `penalty_value(lookup, z, e)` from `param_table.py` lines 47-63:
the GAMS-style fallback chain over the penalty lookup table. -/
def penalty_value (lookup : List ((String × String) × ℚ)) (z e : String) : ℚ :=
  let z := normKey z
  let e := normKey e
  let val := dgetD lookup (z, e) 0
  let val := if val ≤ 0 then dgetD lookup (z, "") 0 else val
  let val := if val ≤ 0 then dgetD lookup ("", "") 0 else val
  val

/-- Helper sample for refuting C8: a penalty table whose only row is a
negative global default `('','') -> -5`. -/
def pvNegLookup : List ((String × String) × ℚ) := [(("", ""), -5)]

/-! ## Arc-extraction mandatory-scalar validation (`_extract_arc_data`) -/

/-- One row of the normalized `other.csv` table `(param, indx1, indx2, value)`;
`value` is the numeric coercion with NaN already mapped to 0. -/
structure ORow where
  param : String
  indx1 : String
  indx2 : String
  value : ℚ
deriving DecidableEq

/-- Index normalization of `_extract_arc_data` lines 477-480: strip,
uppercase, then map blank-like tokens (`NAN`, `NONE`, `NULL`) to `""`. -/
def normIdx (s : String) : String :=
  let u := strUpper (strTrim s)
  if u = "NAN" ∨ u = "NONE" ∨ u = "NULL" then "" else u

/-- `_o_value(param, indx1, indx2, default)` (lines 483-491): value of the
first matching row of the normalized table, else the default. -/
def oValue (tbl : List ORow) (p i1 i2 : String) (dflt : ℚ) : ℚ :=
  match tbl.find? (fun r =>
      decide (strLower (strTrim r.param) = strLower p)
      && decide (normIdx r.indx1 = strUpper (strTrim i1))
      && decide (normIdx r.indx2 = strUpper (strTrim i2))) with
  | none => dflt
  | some r => r.value

/-- One arc row as loaded by `load_arcs_csv` (fields beyond the required four
do not matter for the validation prefix). -/
structure ArcRow where
  a : String
  start : String
  «end» : String
  f : String
deriving DecidableEq

/-- The validation prefix of `_extract_arc_data` (lines 462-499): an empty arc
table returns early with empty outputs and NO scalar validation; otherwise
`Pipe,Len,Std` and then `YearStep` must be strictly positive, else a
`ValueError` is raised. -/
def extractArcDataCheck (dfA : List ArcRow) (datO : List ORow) : Except String Unit :=
  if dfA = [] then Except.ok ()
  else if oValue datO "pipe" "LEN" "STD" 0 ≤ 0 then
    Except.error "other.csv must define Pipe,Len,Std with a positive value for arc formulas."
  else if oValue datO "yearstep" "" "" 0 ≤ 0 then
    Except.error "other.csv must define YearStep with a positive value for arc investment formulas."
  else Except.ok ()

/-- Concrete arc row used to witness the non-empty-arcs validation path. -/
def arcRowSample : ArcRow := ⟨"A1", "N1", "N2", "G"⟩

/-- Concrete `other.csv` row defining a positive `Pipe,Len,Std`. -/
def oRowPipe : ORow := ⟨"Pipe", "Len", "Std", 100⟩

/-- C8 counterexample: with a penalty table whose only entry is a negative
global default `('','') -> -5`, no link of the fallback chain is strictly
positive, yet `penalty_value` returns `-5`, not `0.0` as the claim states. -/
theorem penalty_zero_default_refuted :
    (¬ 0 < dgetD pvNegLookup ("Z", "E") 0)
    ∧ (¬ 0 < dgetD pvNegLookup ("Z", "") 0)
    ∧ (¬ 0 < dgetD pvNegLookup ("", "") 0)
    ∧ penalty_value pvNegLookup "Z" "E" ≠ 0 := by decide

/-- C8 (amended): `penalty_value(lookup, z, e)` returns the first strictly
positive value along the chain `lookup(z,e)`, `lookup(z,'')`, `lookup('','')`;
when no link is strictly positive it returns the `('','')` entry defaulted to
`0.0`, which may itself be non-positive. -/
theorem penalty_value_chain (lookup : List ((String × String) × ℚ)) (z e : String) :
    penalty_value lookup z e =
      (if 0 < dgetD lookup (normKey z, normKey e) 0 then dgetD lookup (normKey z, normKey e) 0
       else if 0 < dgetD lookup (normKey z, "") 0 then dgetD lookup (normKey z, "") 0
       else dgetD lookup ("", "") 0) := by
  unfold penalty_value
  by_cases h1 : dgetD lookup (normKey z, normKey e) 0 ≤ 0
  · by_cases h2 : dgetD lookup (normKey z, "") 0 ≤ 0
    · simp [h1, h2, not_lt.mpr h1, not_lt.mpr h2]
    · simp [h1, h2, not_lt.mpr h1, lt_of_not_le h2]
  · simp [h1, lt_of_not_le h1]

/-- C7 (amended): when the arcs table is non-empty, `_extract_arc_data` fails
with a fatal configuration error exactly when `PipeLenStd` (first) or
`YearStep` (second) is missing or non-positive in the `other` table, and
succeeds when both are strictly positive. -/
theorem mandatory_scalar_check (dfA : List ArcRow) (datO : List ORow) (hne : dfA ≠ []) :
    (oValue datO "pipe" "LEN" "STD" 0 ≤ 0 →
        extractArcDataCheck dfA datO =
          Except.error "other.csv must define Pipe,Len,Std with a positive value for arc formulas.")
    ∧ (0 < oValue datO "pipe" "LEN" "STD" 0 → oValue datO "yearstep" "" "" 0 ≤ 0 →
        extractArcDataCheck dfA datO =
          Except.error "other.csv must define YearStep with a positive value for arc investment formulas.")
    ∧ (0 < oValue datO "pipe" "LEN" "STD" 0 → 0 < oValue datO "yearstep" "" "" 0 →
        extractArcDataCheck dfA datO = Except.ok ()) := by
  refine ⟨fun h1 => ?_, fun h1 h2 => ?_, fun h1 h2 => ?_⟩
  · simp [extractArcDataCheck, hne, h1]
  · simp [extractArcDataCheck, hne, not_le.mpr h1, h2]
  · simp [extractArcDataCheck, hne, not_le.mpr h1, not_le.mpr h2]

/-- C7 counterexample: with an empty arcs table and an `other` table in which
both `PipeLenStd` and `YearStep` are missing (hence non-positive), the
extraction succeeds without raising any configuration error, contradicting
the claim that the failure happens regardless of arcs.csv being empty. -/
theorem mandatory_scalar_skip_refuted :
    oValue [] "pipe" "LEN" "STD" 0 ≤ 0
    ∧ oValue [] "yearstep" "" "" 0 ≤ 0
    ∧ extractArcDataCheck [] [] = Except.ok () := by
  refine ⟨by decide, by decide, rfl⟩

/-- C7 witness: a one-row arcs table with `Pipe,Len,Std = 100` but no
`YearStep` row hits the `YearStep` validation error. -/
theorem mandatory_scalar_check_witness :
    extractArcDataCheck [arcRowSample] [oRowPipe] =
      Except.error "other.csv must define YearStep with a positive value for arc investment formulas." :=
  (mandatory_scalar_check [arcRowSample] [oRowPipe] (List.cons_ne_nil _ _)).2.1 (by decide) (by decide)

theorem dlookup_key_mem {κ α : Type} [DecidableEq κ] (m : List (κ × α)) (k : κ) (v : α)
    (h : dlookup m k = some v) : k ∈ m.map Prod.fst := by
  induction m with
  | nil => simp [dlookup] at h
  | cons p t ih =>
    obtain ⟨k0, w⟩ := p
    by_cases hk : k = k0
    · simp [hk]
    · simp [dlookup, hk] at h
      simp [ih h]

/-! ## Year-2030 carry-forward for production cost (`load_inputs` 1018-1031) -/

/-- The `c_p(n,e,y)` dictionary. -/
abbrev CpMap : Type := List ((String × String × Int) × ℚ)

/-- `sorted(set(k[0] for k in cp_keys))` of `load_inputs` line 1022. -/
def cpNodes (m : CpMap) : List String :=
  List.insertionSort (· ≤ ·) ((m.map fun kv => kv.1.1).dedup)

/-- `sorted(set(k[1] for k in cp_keys))` of `load_inputs` line 1023. -/
def cpFuels (m : CpMap) : List String :=
  List.insertionSort (· ≤ ·) ((m.map fun kv => kv.1.2.1).dedup)

/-- Inner year loop (`load_inputs` lines 1030-1031): copy the reference value
onto every year strictly after the second of the year domain. -/
def cpYearFold (ys : List Int) (n0 f0 : String) (ref : ℚ) (acc : CpMap) : CpMap :=
  (ys.drop 2).foldl (fun acc3 y => dinsert acc3 (n0, f0, y) ref) acc

/-- Per-fuel body (`load_inputs` lines 1026-1031): skip pairs without a
configured `c_p(n,f,2030)`, else run the year loop with that value. -/
def cpFuelStep (ys : List Int) (n0 : String) (acc2 : CpMap) (f0 : String) : CpMap :=
  match dlookup acc2 (n0, f0, 2030) with
  | none => acc2
  | some ref => cpYearFold ys n0 f0 ref acc2

/-- Per-node body (`load_inputs` lines 1024-1031). -/
def cpNodeStep (ys : List Int) (fuels : List String) (acc : CpMap) (n0 : String) : CpMap :=
  fuels.foldl (cpFuelStep ys n0) acc

/-- The GAMS-parity carry-forward pass of `load_inputs` (lines 1018-1031). -/
def cpCarryForward (ys : List Int) (m : CpMap) : CpMap :=
  if 3 ≤ ys.length ∧ 2030 ∈ ys then
    (cpNodes m).foldl (cpNodeStep ys (cpFuels m)) m
  else m

theorem mem_cpNodes (m : CpMap) (n f : String) (y : Int) (v : ℚ)
    (h : dlookup m (n, f, y) = some v) : n ∈ cpNodes m := by
  have hk := dlookup_key_mem m (n, f, y) v h
  have : n ∈ m.map fun kv => kv.1.1 := by
    rcases List.mem_map.mp hk with ⟨kv, hkv, heq⟩
    exact List.mem_map.mpr ⟨kv, hkv, by rw [heq]⟩
  exact ((List.perm_insertionSort _ _).mem_iff).mpr (List.mem_dedup.mpr this)

theorem mem_cpFuels (m : CpMap) (n f : String) (y : Int) (v : ℚ)
    (h : dlookup m (n, f, y) = some v) : f ∈ cpFuels m := by
  have hk := dlookup_key_mem m (n, f, y) v h
  have : f ∈ m.map fun kv => kv.1.2.1 := by
    rcases List.mem_map.mp hk with ⟨kv, hkv, heq⟩
    exact List.mem_map.mpr ⟨kv, hkv, by rw [heq]⟩
  exact ((List.perm_insertionSort _ _).mem_iff).mpr (List.mem_dedup.mpr this)

/-- The carry-forward pass never changes any `(n',f',2030)` cell. -/
def cpRefsStable (m : CpMap) (acc : CpMap) : Prop :=
  ∀ n' f', dlookup acc (n', f', (2030 : Int)) = dlookup m (n', f', (2030 : Int))

theorem cpYearFold_refs_stable (ys : List Int) (m : CpMap) (n0 f0 : String) (ref : ℚ)
    (hm : dlookup m (n0, f0, (2030 : Int)) = some ref) :
    ∀ acc, cpRefsStable m acc → cpRefsStable m (cpYearFold ys n0 f0 ref acc) := by
  intro acc hacc
  refine foldl_preserve (cpRefsStable m) _ (ys.drop 2) ?_ acc hacc
  intro y _ s hs n' f'
  by_cases hkey : ((n', f', (2030 : Int)) : String × String × Int) = (n0, f0, y)
  · rw [hkey, dlookup_dinsert_self]
    have h30 : (2030 : Int) = y := congrArg (fun p => p.2.2) hkey
    rw [← h30, hm]
  · rw [dlookup_dinsert_ne _ _ _ _ hkey, hs n' f']

theorem cpYearFold_sets (ys : List Int) (n0 f0 : String) (ref : ℚ) (acc : CpMap) :
    ∀ y0 ∈ ys.drop 2, dlookup (cpYearFold ys n0 f0 ref acc) (n0, f0, y0) = some ref := by
  intro y0 hy0
  refine foldl_through_all (fun _ => True)
    (fun s => dlookup s (n0, f0, y0) = some ref) _ y0 (ys.drop 2) hy0
    (fun _ _ _ _ => trivial) ?_ ?_ acc trivial
  · intro s _
    exact dlookup_dinsert_self s (n0, f0, y0) ref
  · intro y _ s hs
    by_cases hy : ((n0, f0, y0) : String × String × Int) = (n0, f0, y)
    · rw [hy, dlookup_dinsert_self]
    · rw [dlookup_dinsert_ne _ _ _ _ hy, hs]

theorem cpYearFold_other (ys : List Int) (n0 f0 : String) (ref : ℚ) (acc : CpMap)
    (n1 f1 : String) (hne : (n1, f1) ≠ (n0, f0)) (y : Int) :
    dlookup (cpYearFold ys n0 f0 ref acc) (n1, f1, y) = dlookup acc (n1, f1, y) := by
  refine foldl_preserve (fun s => dlookup s (n1, f1, y) = dlookup acc (n1, f1, y)) _
    (ys.drop 2) ?_ acc rfl
  intro y' _ s hs
  have hkey : ((n1, f1, y) : String × String × Int) ≠ (n0, f0, y') := by
    intro hk
    exact hne (by
      have h1 : n1 = n0 := congrArg (fun p => p.1) hk
      have h2 : f1 = f0 := congrArg (fun p => p.2.1) hk
      rw [h1, h2])
  rw [dlookup_dinsert_ne _ _ _ _ hkey, hs]

/-- C3: the year-2030 carry-forward. If the (final) year domain has at least
3 years and contains 2030, then every node/fuel pair with a configured
`c_p(n,f,2030)` has `c_p(n,f,y) = c_p(n,f,2030)` after the pass, for every
year `y` strictly after the second in the (sorted) year domain; the reference
cell itself is unchanged. -/
theorem cp_carry_forward_2030 (ys : List Int) (m : CpMap)
    (n f : String) (v : ℚ) (h3 : 3 ≤ ys.length) (h30 : (2030 : Int) ∈ ys)
    (hv : dlookup m (n, f, 2030) = some v) :
    dlookup (cpCarryForward ys m) (n, f, 2030) = some v
    ∧ ∀ y ∈ ys.drop 2, dlookup (cpCarryForward ys m) (n, f, y) = some v := by
  have hguard : (3 ≤ ys.length ∧ (2030 : Int) ∈ ys) := ⟨h3, h30⟩
  rw [cpCarryForward, if_pos hguard]
  have hmemN : n ∈ cpNodes m := mem_cpNodes m n f 2030 v hv
  have hmemF : f ∈ cpFuels m := mem_cpFuels m n f 2030 v hv
  set Q : CpMap → Prop := fun acc =>
    cpRefsStable m acc ∧ ∀ y ∈ ys.drop 2, dlookup acc (n, f, y) = some v with hQdef
  -- any fuel step preserves `cpRefsStable`
  have fuelstep_P : ∀ (n0 f0 : String), ∀ acc2, cpRefsStable m acc2 →
      cpRefsStable m (cpFuelStep ys n0 acc2 f0) := by
    intro n0 f0 acc2 hacc
    unfold cpFuelStep
    cases href : dlookup acc2 (n0, f0, 2030) with
    | none => exact hacc
    | some ref =>
      have hm : dlookup m (n0, f0, (2030 : Int)) = some ref := by
        rw [← hacc n0 f0, href]
      exact cpYearFold_refs_stable ys m n0 f0 ref hm acc2 hacc
  -- any fuel step preserves `Q`
  have fuelstep_Q : ∀ (n0 f0 : String), ∀ acc2, Q acc2 → Q (cpFuelStep ys n0 acc2 f0) := by
    intro n0 f0 acc2 hacc
    refine ⟨fuelstep_P n0 f0 acc2 hacc.1, ?_⟩
    unfold cpFuelStep
    cases href : dlookup acc2 (n0, f0, 2030) with
    | none => exact hacc.2
    | some ref =>
      intro y hy
      by_cases hpair : ((n, f) : String × String) = (n0, f0)
      · have hn : n = n0 := congrArg (fun p => p.1) hpair
        have hf : f = f0 := congrArg (fun p => p.2) hpair
        subst hn
        subst hf
        have hrv : ref = v := by
          have h0 := hacc.1 n f
          rw [href, hv] at h0
          exact Option.some.inj h0
        subst hrv
        exact cpYearFold_sets ys n f ref acc2 y hy
      · rw [cpYearFold_other ys n0 f0 ref acc2 n f hpair y]
        exact hacc.2 y hy
  -- the designated fuel step turns `cpRefsStable` into `Q`
  have fuelstep_T : ∀ acc2, cpRefsStable m acc2 → Q (cpFuelStep ys n acc2 f) := by
    intro acc2 hacc
    have href : dlookup acc2 (n, f, (2030 : Int)) = some v := by rw [hacc n f, hv]
    refine ⟨fuelstep_P n f acc2 hacc, ?_⟩
    unfold cpFuelStep
    rw [href]
    exact cpYearFold_sets ys n f v acc2
  -- node steps
  have nodestep_P : ∀ (n0 : String), ∀ acc, cpRefsStable m acc →
      cpRefsStable m (cpNodeStep ys (cpFuels m) acc n0) := by
    intro n0 acc hacc
    exact foldl_preserve (cpRefsStable m) _ (cpFuels m)
      (fun f0 _ s hs => fuelstep_P n0 f0 s hs) acc hacc
  have nodestep_Q : ∀ (n0 : String), ∀ acc, Q acc → Q (cpNodeStep ys (cpFuels m) acc n0) := by
    intro n0 acc hacc
    exact foldl_preserve Q _ (cpFuels m) (fun f0 _ s hs => fuelstep_Q n0 f0 s hs) acc hacc
  have nodestep_T : ∀ acc, cpRefsStable m acc → Q (cpNodeStep ys (cpFuels m) acc n) := by
    intro acc hacc
    exact foldl_through_all (cpRefsStable m) Q (cpFuelStep ys n) f (cpFuels m) hmemF
      (fun f0 _ s hs => fuelstep_P n f0 s hs)
      (fun s hs => fuelstep_T s hs)
      (fun f0 _ s hs => fuelstep_Q n f0 s hs) acc hacc
  have hfinal : Q ((cpNodes m).foldl (cpNodeStep ys (cpFuels m)) m) := by
    refine foldl_through_all (cpRefsStable m) Q (cpNodeStep ys (cpFuels m)) n (cpNodes m)
      hmemN ?_ ?_ ?_ m (fun _ _ => rfl)
    · intro n0 _ s hs
      exact nodestep_P n0 s hs
    · intro s hs
      exact nodestep_T s hs
    · intro n0 _ s hs
      exact nodestep_Q n0 s hs
  exact ⟨by rw [hfinal.1 n f, hv], hfinal.2⟩

/-- C3 witness: with production-cost rows only for 2030 (value 7) and year
domain 2025/2028/2030/2035/2040, the pass gives `c_p(N1,G,2035) = 7`. -/
theorem cp_carry_forward_2030_witness :
    dlookup (cpCarryForward [2025, 2028, 2030, 2035, 2040]
        [((("N1", "G", 2030) : String × String × Int), (7 : ℚ))]) ("N1", "G", 2035) = some 7 :=
  (cp_carry_forward_2030 [2025, 2028, 2030, 2035, 2040]
      [((("N1", "G", 2030) : String × String × Int), (7 : ℚ))] "N1" "G" 7
      (by decide) (by decide) (by decide)).2 2035 (by decide)

/-! ## More dictionary lemmas (key sets) -/

theorem dlookup_eq_none_iff {κ α : Type} [DecidableEq κ] (m : List (κ × α)) (k : κ) :
    dlookup m k = none ↔ k ∉ m.map Prod.fst := by
  induction m with
  | nil => simp [dlookup]
  | cons p t ih =>
    obtain ⟨k0, w⟩ := p
    by_cases hk : k = k0
    · simp [dlookup, hk]
    · simp [dlookup, hk, ih]

theorem dlookup_mem {κ α : Type} [DecidableEq κ] (m : List (κ × α)) (k : κ) (v : α)
    (h : dlookup m k = some v) : (k, v) ∈ m := by
  induction m with
  | nil => simp [dlookup] at h
  | cons p t ih =>
    obtain ⟨k0, w⟩ := p
    by_cases hk : k = k0
    · subst hk
      simp [dlookup] at h
      simp [h]
    · simp [dlookup, hk] at h
      simp [ih h]

theorem keys_dinsert {κ α : Type} [DecidableEq κ] (m : List (κ × α)) (k : κ) (v : α) :
    (dinsert m k v).map Prod.fst =
      (if k ∈ m.map Prod.fst then m.map Prod.fst else m.map Prod.fst ++ [k]) := by
  induction m with
  | nil => simp [dinsert]
  | cons p t ih =>
    obtain ⟨k0, w⟩ := p
    by_cases hk : k = k0
    · simp [dinsert, hk]
    · simp [dinsert, hk, ih]
      by_cases hmem : k ∈ t.map Prod.fst <;> simp [hmem, hk]

theorem nodupKeys_dinsert {κ α : Type} [DecidableEq κ] (m : List (κ × α)) (k : κ) (v : α)
    (h : (m.map Prod.fst).Nodup) : ((dinsert m k v).map Prod.fst).Nodup := by
  rw [keys_dinsert]
  by_cases hmem : k ∈ m.map Prod.fst
  · simpa [hmem]
  · rw [if_neg hmem, List.nodup_append]
    refine ⟨h, List.nodup_singleton k, ?_⟩
    intro a ha hb
    rw [List.mem_singleton.mp hb] at ha
    exact hmem ha

theorem dlookup_of_mem_nodup {κ α : Type} [DecidableEq κ] (m : List (κ × α)) (k : κ) (v : α)
    (hnd : (m.map Prod.fst).Nodup) (h : (k, v) ∈ m) : dlookup m k = some v := by
  induction m with
  | nil => simp at h
  | cons p t ih =>
    obtain ⟨k0, w⟩ := p
    rcases List.mem_cons.mp h with h0 | h0
    · have hk : k = k0 := congrArg Prod.fst h0
      have hv : v = w := congrArg Prod.snd h0
      simp [dlookup, hk, hv]
    · have hk : k ≠ k0 := by
        intro hkk
        subst hkk
        have : k ∈ t.map Prod.fst := List.mem_map.mpr ⟨(k, v), h0, rfl⟩
        exact (List.nodup_cons.mp (by simpa using hnd)).1 this
      simp [dlookup, hk]
      exact ih (List.nodup_cons.mp (by simpa using hnd)).2 h0

/-! ## Production extraction (`_extract_production_data`, lines 705-767) -/

/-- One row of `production.csv`: `n, f, y` with optional `mc`, `lb` columns
and per-hour capacity values (`none` models NaN). -/
structure ProdRow where
  n : String
  f : String
  y : Option Int
  mc : Option ℚ
  lb : Option ℚ
  vals : Int → Option ℚ

/-- State of the production extractor: `(cap_p, c_p, lb_p)`. -/
structure ProdState where
  cap_p : List ((String × String × Int × Int) × ℚ)
  c_p : CpMap
  lb_p : List ((String × String × Int × Int) × ℚ)

/-- Hour loop of `_extract_production_data` lines 744-749: write `cap_p` from
the hour column (NaN as 0) and `lb_p` from the row's scalar `lb`. -/
def prodHourFold (hourCols : List Int) (n f : String) (y : Int) (capOf : Int → Option ℚ)
    (lb0 : ℚ) (st : ProdState) : ProdState :=
  hourCols.foldl (fun s h =>
    { s with
      cap_p := dinsert s.cap_p (n, f, y, h) ((capOf h).getD 0)
      lb_p := dinsert s.lb_p (n, f, y, h) lb0 }) st

/-- Row loop of `_extract_production_data` lines 729-749: skip rows with blank
node/fuel or missing year, record `c_p` from `mc`, then run the hour loop. -/
def prodRowStep (hourCols : List Int) (st : ProdState) (r : ProdRow) : ProdState :=
  let n := strTrim r.n
  let f := strTrim r.f
  match r.y with
  | none => st
  | some y =>
    if n = "" ∨ f = "" then st
    else
      prodHourFold hourCols n f y r.vals (r.lb.getD 0)
        { st with c_p := dinsert st.c_p (n, f, y) (r.mc.getD 0) }

/-- The sorted set of years of the valid production rows. -/
def prodYearsOf (rows : List ProdRow) : List Int :=
  List.insertionSort (· ≤ ·)
    ((rows.filterMap fun r =>
      if strTrim r.n = "" ∨ strTrim r.f = "" then none else r.y).dedup)

/-- Fuels appearing in `c_p` keys for a given node (line 755). -/
def cpFuelsForNode (m : CpMap) (n : String) : List String :=
  List.insertionSort (· ≤ ·)
    ((m.filterMap fun kv => if kv.1.1 = n then some kv.1.2.1 else none).dedup)

/-- Extractor-level 2030 carry-forward (`_extract_production_data` lines
751-761), over the sorted production years. -/
def cpCarryProd (ordered : List Int) (m : CpMap) : CpMap :=
  if 3 ≤ ordered.length ∧ 2030 ∈ ordered then
    (cpNodes m).foldl (fun acc n =>
      (cpFuelsForNode m n).foldl (fun acc2 f =>
        match dlookup acc2 (n, f, 2030) with
        | none => acc2
        | some ref => cpYearFold ordered n f ref acc2) acc) m
  else m

/-- Clip pass of `_extract_production_data` lines 763-765:
`lb_p[key] = min(lb_p.get(key, 0), cap_val)` for every `cap_p` item. -/
def lbClip (st : ProdState) : ProdState :=
  { st with
    lb_p := st.cap_p.foldl (fun lb kv => dinsert lb kv.1 (min (dgetD lb kv.1 0) kv.2)) st.lb_p }

/-- `_extract_production_data`: row extraction, 2030 carry-forward on `c_p`,
then the `lb_p <= cap_p` clip. -/
def extractProductionData (hourCols : List Int) (rows : List ProdRow) : ProdState :=
  let st := rows.foldl (prodRowStep hourCols) ⟨[], [], []⟩
  lbClip { st with c_p := cpCarryProd (prodYearsOf rows) st.c_p }

/-- Well-formedness carried through the row loop: `cap_p` and `lb_p` have the
same key set, and `cap_p` has no duplicate keys. -/
def ProdWf (st : ProdState) : Prop :=
  (∀ k, dlookup st.cap_p k = none ↔ dlookup st.lb_p k = none)
  ∧ (st.cap_p.map Prod.fst).Nodup

theorem prodHourFold_wf (hourCols : List Int) (n f : String) (y : Int)
    (capOf : Int → Option ℚ) (lb0 : ℚ) (st : ProdState) (h : ProdWf st) :
    ProdWf (prodHourFold hourCols n f y capOf lb0 st) := by
  refine foldl_preserve ProdWf _ hourCols ?_ st h
  intro hh _ s hs
  constructor
  · intro k
    by_cases hk : k = (n, f, y, hh)
    · subst hk
      simp [dlookup_dinsert_self]
    · rw [dlookup_dinsert_ne _ _ _ _ hk, dlookup_dinsert_ne _ _ _ _ hk]
      exact hs.1 k
  · exact nodupKeys_dinsert _ _ _ hs.2

theorem prodRowStep_wf (hourCols : List Int) (st : ProdState) (r : ProdRow)
    (h : ProdWf st) : ProdWf (prodRowStep hourCols st r) := by
  unfold prodRowStep
  cases r.y with
  | none => exact h
  | some y =>
    by_cases hb : strTrim r.n = "" ∨ strTrim r.f = ""
    · simpa [hb] using h
    · simp only [hb, if_false]
      exact prodHourFold_wf _ _ _ _ _ _ _ ⟨h.1, h.2⟩

theorem dgetD_def {κ α : Type} [DecidableEq κ] (m : List (κ × α)) (k : κ) (d : α) :
    dgetD m k d = (dlookup m k).getD d := rfl

/-- In a list with `Nodup` keys, two entries sharing a key are equal. -/
theorem entry_unique {κ α : Type} [DecidableEq κ] (L : List (κ × α))
    (hnd : (L.map Prod.fst).Nodup) (p q : κ × α) (hp : p ∈ L) (hq : q ∈ L)
    (hk : p.1 = q.1) : p = q := by
  obtain ⟨k1, v1⟩ := p
  obtain ⟨k2, v2⟩ := q
  simp only at hk
  subst hk
  have h1 := dlookup_of_mem_nodup L k1 v1 hnd hp
  have h2 := dlookup_of_mem_nodup L k1 v2 hnd hq
  rw [h1] at h2
  rw [Option.some.inj h2]

/-- After the clip fold, every `cap_p` entry `(k, v)` has
`lb_p[k] = min(lb_before[k] default 0, v)`. -/
theorem lbClip_entry (L : List ((String × String × Int × Int) × ℚ))
    (hnd : (L.map Prod.fst).Nodup) (lb0 : List ((String × String × Int × Int) × ℚ))
    (k : String × String × Int × Int) (v : ℚ) (hmem : (k, v) ∈ L) :
    dlookup (L.foldl (fun lb kv => dinsert lb kv.1 (min (dgetD lb kv.1 0) kv.2)) lb0) k
      = some (min (dgetD lb0 k 0) v) := by
  have hLnd : L.Nodup := List.Nodup.of_map Prod.fst hnd
  have hkey : ∀ kv ∈ L, kv ≠ (k, v) → kv.1 ≠ k := by
    intro kv hkv hne hk1
    exact hne (entry_unique L hnd kv (k, v) hkv hmem hk1)
  refine foldl_through (fun lb => dlookup lb k = dlookup lb0 k)
    (fun lb => dlookup lb k = some (min (dgetD lb0 k 0) v)) _ (k, v) L hmem hLnd
    ?_ ?_ ?_ lb0 rfl
  · intro kv hkv hne s hs
    rw [dlookup_dinsert_ne _ _ _ _ (Ne.symm (hkey kv hkv hne)), hs]
  · intro s hs
    have hd : dgetD s k 0 = dgetD lb0 k 0 := by
      unfold dgetD
      rw [hs]
    rw [dlookup_dinsert_self, hd]
  · intro kv hkv hne s hs
    rw [dlookup_dinsert_ne _ _ _ _ (Ne.symm (hkey kv hkv hne)), hs]

/-- C5: the `lb <= cap` invariant. Over the entire production domain (cells
absent from both maps default to 0), after extraction
`lb_p(n,e,y,h) <= cap_p(n,e,y,h)`. -/
theorem lb_le_cap (hourCols : List Int) (rows : List ProdRow)
    (k : String × String × Int × Int) :
    dgetD (extractProductionData hourCols rows).lb_p k 0
      ≤ dgetD (extractProductionData hourCols rows).cap_p k 0 := by
  have hwf : ProdWf (rows.foldl (prodRowStep hourCols) ⟨[], [], []⟩) :=
    foldl_preserve ProdWf _ rows (fun r _ s hs => prodRowStep_wf hourCols s r hs) _
      ⟨fun kk => by simp [dlookup], by simp⟩
  set st := rows.foldl (prodRowStep hourCols) (⟨[], [], []⟩ : ProdState) with hst
  have hcapeq : (extractProductionData hourCols rows).cap_p = st.cap_p := rfl
  have hlbeq : (extractProductionData hourCols rows).lb_p =
      st.cap_p.foldl (fun lb kv => dinsert lb kv.1 (min (dgetD lb kv.1 0) kv.2)) st.lb_p := rfl
  rw [hcapeq, hlbeq]
  cases hcap : dlookup st.cap_p k with
  | some v =>
    have hmem := dlookup_mem st.cap_p k v hcap
    have hent := lbClip_entry st.cap_p hwf.2 st.lb_p k v hmem
    rw [dgetD_def, dgetD_def, hent, hcap]
    simp
  | none =>
    have hnk : k ∉ st.cap_p.map Prod.fst := (dlookup_eq_none_iff _ _).mp hcap
    have hlb0 : dlookup st.lb_p k = none := (hwf.1 k).mp hcap
    have hpres : dlookup (st.cap_p.foldl
        (fun lb kv => dinsert lb kv.1 (min (dgetD lb kv.1 0) kv.2)) st.lb_p) k = none := by
      refine foldl_preserve (fun lb => dlookup lb k = none) _ st.cap_p ?_ st.lb_p hlb0
      intro kv hkv s hs
      have : k ≠ kv.1 := by
        intro h
        exact hnk (h ▸ List.mem_map.mpr ⟨kv, hkv, rfl⟩)
      rw [dlookup_dinsert_ne _ _ _ _ this, hs]
    rw [dgetD_def, dgetD_def, hpres, hcap]

/-! ## Regasification extraction (`_extract_regas_data`, lines 770-824, and
the `load_inputs` setdefault completion, lines 992-997) -/

/-- `_normalize_fuel_label` (`data_loading.py` lines 170-178). -/
def normalizeFuel (raw : String) : String :=
  let s := strUpper (strTrim raw)
  if s = "GAS" ∨ s = "NATURAL_GAS" ∨ s = "NATURALGAS" ∨ s = "NG" then "G"
  else if s = "HYDROGEN" ∨ s = "H2" then "H"
  else if s = "COAL" then "C"
  else s

/-- One row of `regasification.csv` after loading/aliasing: `n`, `f`, optional
year (missing defaults to 2025) and optional `cal_c`/`ub` (`none` models NaN). -/
structure RegasRow where
  n : String
  f : String
  y : Option Int
  cal_c : Option ℚ
  ub : Option ℚ
deriving DecidableEq

/-- The `c_lr`/`ub_r` dictionaries, keyed by `(n, e)`. -/
abbrev RMap : Type := List ((String × String) × ℚ)

/-- Default regasification cost: 1 for gas-canonicalizing fuels, 9999
otherwise (lines 790-794). -/
def regasDefaultClr (e : String) : ℚ := if normalizeFuel e = "G" then 1 else 9999

/-- `cal_c` clamping of line 816-817: NaN or non-positive becomes 1. -/
def regasCalC (r : RegasRow) : ℚ :=
  match r.cal_c with
  | none => 1
  | some v => if v ≤ 0 then 1 else v

/-- `ub` clamping of lines 818-819: NaN becomes 0, negative clipped to 0. -/
def regasUb (r : RegasRow) : ℚ := max 0 (r.ub.getD 0)

/-- Row loop body of `_extract_regas_data` lines 807-822: skip blank node or
fuel, skip years other than 2025, else overwrite `c_lr` and `ub_r` at the
(stripped node, canonicalized fuel) key. -/
def regasStep (st : RMap × RMap) (r : RegasRow) : RMap × RMap :=
  if strTrim r.n = "" ∨ normalizeFuel r.f = "" then st
  else if r.y.getD 2025 ≠ 2025 then st
  else
    (dinsert st.1 (strTrim r.n, normalizeFuel r.f)
        (if normalizeFuel (normalizeFuel r.f) = "G" then regasCalC r else 9999),
      dinsert st.2 (strTrim r.n, normalizeFuel r.f) (regasUb r))

/-- Default initialization over one node (lines 790-794, inner loop). -/
def regasInitStep (es : List String) (st : RMap × RMap) (n0 : String) : RMap × RMap :=
  es.foldl (fun st2 e => (dinsert st2.1 (n0, e) (regasDefaultClr e), dinsert st2.2 (n0, e) 0)) st

/-- Default initialization over the node domain (lines 788-794). -/
def regasInit (ns es : List String) : RMap × RMap :=
  ns.foldl (regasInitStep es) ([], [])

/-- `load_inputs` lines 994-997: `setdefault` completion over one node. -/
def regasSetdStep (es : List String) (st : RMap × RMap) (n0 : String) : RMap × RMap :=
  es.foldl (fun st2 e => (dsetd st2.1 (n0, e) (regasDefaultClr e), dsetd st2.2 (n0, e) 0)) st

/-- `regas_nodes` (line 804): sorted set of non-blank stripped row nodes. -/
def regasNodesOf (rows : List RegasRow) : List String :=
  List.insertionSort (· ≤ ·)
    (((rows.map fun r => strTrim r.n).filter fun s => decide (s ≠ "")).dedup)

/-- `sorted(set(n_values) | set(regas_nodes))` (`load_inputs` line 993). -/
def regasAllNodes (rows : List RegasRow) (ns : List String) : List String :=
  List.insertionSort (· ≤ ·) ((ns ++ regasNodesOf rows).dedup)

/-- Full regasification pipeline: defaults over `N x E`, the 2025-only row
overrides, then the `setdefault` completion over the enlarged node domain. -/
def extractRegasFinal (rows : List RegasRow) (ns es : List String) : RMap × RMap :=
  (regasAllNodes rows ns).foldl (regasSetdStep es) (rows.foldl regasStep (regasInit ns es))

/-- A row participates in the override of cell `(n, e)` iff its stripped node
is `n` (non-blank), its canonicalized fuel is `e` (non-blank), and its year
(defaulted to 2025) is exactly 2025. -/
def regasMatches (n e : String) (r : RegasRow) : Bool :=
  decide (strTrim r.n = n) && decide (normalizeFuel r.f = e)
  && decide (¬ strTrim r.n = "") && decide (¬ normalizeFuel r.f = "")
  && decide (r.y.getD 2025 = 2025)

theorem regasStep_matching (st : RMap × RMap) (r : RegasRow) (n e : String)
    (hm : regasMatches n e r = true) :
    dlookup (regasStep st r).1 (n, e)
      = some (if normalizeFuel e = "G" then regasCalC r else 9999)
    ∧ dlookup (regasStep st r).2 (n, e) = some (regasUb r) := by
  unfold regasMatches at hm
  simp only [Bool.and_eq_true, decide_eq_true_eq] at hm
  obtain ⟨⟨⟨⟨h1, h2⟩, h3⟩, h4⟩, h5⟩ := hm
  unfold regasStep
  rw [if_neg (by rw [h1, h2]; exact not_or.mpr ⟨fun hc => h3 (h1 ▸ hc), fun hc => h4 (h2 ▸ hc)⟩)]
  rw [if_neg (by rw [h5]; exact fun hc => hc rfl)]
  constructor
  · have hk : ((strTrim r.n, normalizeFuel r.f) : String × String) = (n, e) := by rw [h1, h2]
    rw [← hk, dlookup_dinsert_self, h2]
  · have hk : ((strTrim r.n, normalizeFuel r.f) : String × String) = (n, e) := by rw [h1, h2]
    rw [← hk, dlookup_dinsert_self]

theorem regasStep_not_matching (st : RMap × RMap) (r : RegasRow) (n e : String)
    (hm : regasMatches n e r = false) :
    dlookup (regasStep st r).1 (n, e) = dlookup st.1 (n, e)
    ∧ dlookup (regasStep st r).2 (n, e) = dlookup st.2 (n, e) := by
  unfold regasStep
  by_cases hg1 : strTrim r.n = "" ∨ normalizeFuel r.f = ""
  · rw [if_pos hg1]
    exact ⟨rfl, rfl⟩
  · rw [if_neg hg1]
    by_cases hg2 : r.y.getD 2025 ≠ 2025
    · rw [if_pos hg2]
      exact ⟨rfl, rfl⟩
    · rw [if_neg hg2]
      have hkey : ((n, e) : String × String) ≠ (strTrim r.n, normalizeFuel r.f) := by
        intro hk
        have hn' : strTrim r.n = n := (congrArg Prod.fst hk).symm
        have he' : normalizeFuel r.f = e := (congrArg Prod.snd hk).symm
        have htrue : regasMatches n e r = true := by
          unfold regasMatches
          simp only [Bool.and_eq_true, decide_eq_true_eq]
          exact ⟨⟨⟨⟨hn', he'⟩, (not_or.mp hg1).1⟩, (not_or.mp hg1).2⟩, not_ne_iff.mp hg2⟩
        rw [htrue] at hm
        exact Bool.true_eq_false ▸ hm ▸ rfl
      exact ⟨dlookup_dinsert_ne _ _ _ _ hkey, dlookup_dinsert_ne _ _ _ _ hkey⟩

theorem regas_rows_fold (n e : String) (rows : List RegasRow) (st : RMap × RMap) :
    ((rows.filter (regasMatches n e)) = [] →
        dlookup (rows.foldl regasStep st).1 (n, e) = dlookup st.1 (n, e)
        ∧ dlookup (rows.foldl regasStep st).2 (n, e) = dlookup st.2 (n, e))
    ∧ (∀ r, (rows.filter (regasMatches n e)).getLast? = some r →
        dlookup (rows.foldl regasStep st).1 (n, e)
          = some (if normalizeFuel e = "G" then regasCalC r else 9999)
        ∧ dlookup (rows.foldl regasStep st).2 (n, e) = some (regasUb r)) := by
  induction rows using List.reverseRecOn with
  | nil => exact ⟨fun _ => ⟨rfl, rfl⟩, fun r hr => by simp at hr⟩
  | append_singleton t r ih =>
    rw [List.foldl_append, List.filter_append]
    cases hm : regasMatches n e r with
    | true =>
      constructor
      · intro hemp
        rw [List.filter_cons_of_pos hm] at hemp
        exact absurd hemp (by simp)
      · intro r' hr'
        rw [List.filter_cons_of_pos hm, List.filter_nil] at hr'
        rw [List.getLast?_concat] at hr'
        have : r = r' := Option.some.inj hr'
        subst this
        simp only [List.foldl_cons, List.foldl_nil]
        exact regasStep_matching _ r n e hm
    | false =>
      have hm' : ¬ (regasMatches n e r = true) := by simp [hm]
      constructor
      · intro hemp
        rw [List.filter_cons_of_neg hm', List.filter_nil, List.append_nil] at hemp
        simp only [List.foldl_cons, List.foldl_nil]
        have hstep := regasStep_not_matching (t.foldl regasStep st) r n e hm
        have hih := (ih).1 hemp
        exact ⟨hstep.1.trans hih.1, hstep.2.trans hih.2⟩
      · intro r' hr'
        rw [List.filter_cons_of_neg hm', List.filter_nil, List.append_nil] at hr'
        simp only [List.foldl_cons, List.foldl_nil]
        have hstep := regasStep_not_matching (t.foldl regasStep st) r n e hm
        have hih := (ih).2 r' hr'
        exact ⟨hstep.1.trans hih.1, hstep.2.trans hih.2⟩

theorem regasInitStep_hit (es : List String) (n0 : String) (st : RMap × RMap) (e : String)
    (he : e ∈ es) :
    dlookup (regasInitStep es st n0).1 (n0, e) = some (regasDefaultClr e)
    ∧ dlookup (regasInitStep es st n0).2 (n0, e) = some 0 := by
  refine foldl_through_all (fun _ => True)
    (fun st2 => dlookup st2.1 (n0, e) = some (regasDefaultClr e) ∧ dlookup st2.2 (n0, e) = some 0)
    _ e es he (fun _ _ _ _ => trivial) ?_ ?_ st trivial
  · intro s _
    exact ⟨dlookup_dinsert_self _ _ _, dlookup_dinsert_self _ _ _⟩
  · intro e' _ s hs
    by_cases hk : ((n0, e) : String × String) = (n0, e')
    · have he' : e = e' := congrArg Prod.snd hk
      subst he'
      exact ⟨dlookup_dinsert_self _ _ _, dlookup_dinsert_self _ _ _⟩
    · exact ⟨by rw [dlookup_dinsert_ne _ _ _ _ hk]; exact hs.1,
        by rw [dlookup_dinsert_ne _ _ _ _ hk]; exact hs.2⟩

theorem regasInitStep_other (es : List String) (n0 : String) (st : RMap × RMap)
    (n1 e1 : String) (hne : n1 ≠ n0) :
    dlookup (regasInitStep es st n0).1 (n1, e1) = dlookup st.1 (n1, e1)
    ∧ dlookup (regasInitStep es st n0).2 (n1, e1) = dlookup st.2 (n1, e1) := by
  refine foldl_preserve
    (fun st2 => dlookup st2.1 (n1, e1) = dlookup st.1 (n1, e1)
      ∧ dlookup st2.2 (n1, e1) = dlookup st.2 (n1, e1)) _ es ?_ st ⟨rfl, rfl⟩
  intro e' _ s hs
  have hk : ((n1, e1) : String × String) ≠ (n0, e') := fun h => hne (congrArg Prod.fst h)
  exact ⟨by rw [dlookup_dinsert_ne _ _ _ _ hk]; exact hs.1,
    by rw [dlookup_dinsert_ne _ _ _ _ hk]; exact hs.2⟩

theorem regasInit_hit (ns es : List String) (n e : String) (hn : n ∈ ns) (he : e ∈ es) :
    dlookup (regasInit ns es).1 (n, e) = some (regasDefaultClr e)
    ∧ dlookup (regasInit ns es).2 (n, e) = some 0 := by
  refine foldl_through_all (fun _ => True)
    (fun st => dlookup st.1 (n, e) = some (regasDefaultClr e) ∧ dlookup st.2 (n, e) = some 0)
    (regasInitStep es) n ns hn (fun _ _ _ _ => trivial) ?_ ?_ ([], []) trivial
  · intro s _
    exact regasInitStep_hit es n s e he
  · intro n0 _ s hs
    by_cases hn0 : n = n0
    · subst hn0
      exact regasInitStep_hit es n s e he
    · have := regasInitStep_other es n0 s n e hn0
      exact ⟨this.1.trans hs.1, this.2.trans hs.2⟩

theorem regasInit_none (ns es : List String) (n e : String) (hn : n ∉ ns) :
    dlookup (regasInit ns es).1 (n, e) = none
    ∧ dlookup (regasInit ns es).2 (n, e) = none := by
  have hbase : dlookup (([], []) : RMap × RMap).1 (n, e) = none
      ∧ dlookup (([], []) : RMap × RMap).2 (n, e) = none := ⟨rfl, rfl⟩
  refine foldl_preserve
    (fun st : RMap × RMap => dlookup st.1 (n, e) = none ∧ dlookup st.2 (n, e) = none)
    (regasInitStep es) ns ?_ (([], []) : RMap × RMap) hbase
  intro n0 hn0 s hs
  have hne : n ≠ n0 := fun h => hn (h ▸ hn0)
  have := regasInitStep_other es n0 s n e hne
  exact ⟨this.1.trans hs.1, this.2.trans hs.2⟩

theorem regasSetdStep_hit (es : List String) (n0 : String) (st : RMap × RMap) (e : String)
    (he : e ∈ es) :
    dlookup (regasSetdStep es st n0).1 (n0, e)
      = some ((dlookup st.1 (n0, e)).getD (regasDefaultClr e))
    ∧ dlookup (regasSetdStep es st n0).2 (n0, e) = some ((dlookup st.2 (n0, e)).getD 0) := by
  set Q : RMap × RMap → Prop := fun st2 =>
    dlookup st2.1 (n0, e) = some ((dlookup st.1 (n0, e)).getD (regasDefaultClr e))
    ∧ dlookup st2.2 (n0, e) = some ((dlookup st.2 (n0, e)).getD 0) with hQ
  set P : RMap × RMap → Prop := fun st2 =>
    (dlookup st2.1 (n0, e) = dlookup st.1 (n0, e)
      ∧ dlookup st2.2 (n0, e) = dlookup st.2 (n0, e)) ∨ Q st2 with hP
  have hQstep : ∀ e' : String, ∀ s, Q s →
      Q (dsetd s.1 (n0, e') (regasDefaultClr e'), dsetd s.2 (n0, e') 0) := by
    intro e' s hs
    by_cases hk : ((n0, e) : String × String) = (n0, e')
    · exact ⟨dlookup_dsetd_of_some _ _ _ _ _ hs.1, dlookup_dsetd_of_some _ _ _ _ _ hs.2⟩
    · exact ⟨by rw [dlookup_dsetd_ne _ _ _ _ hk]; exact hs.1,
        by rw [dlookup_dsetd_ne _ _ _ _ hk]; exact hs.2⟩
  have hTstep : ∀ s, P s → Q (dsetd s.1 (n0, e) (regasDefaultClr e), dsetd s.2 (n0, e) 0) := by
    intro s hs
    rcases hs with hunch | hq
    · constructor
      · cases h1 : dlookup st.1 (n0, e) with
        | some w =>
          exact (dlookup_dsetd_of_some _ _ _ _ _ (hunch.1.trans h1)).trans (by simp [h1])
        | none =>
          exact (dlookup_dsetd_self_of_none _ _ _ (hunch.1.trans h1)).trans (by simp [h1])
      · cases h2 : dlookup st.2 (n0, e) with
        | some w =>
          exact (dlookup_dsetd_of_some _ _ _ _ _ (hunch.2.trans h2)).trans (by simp [h2])
        | none =>
          exact (dlookup_dsetd_self_of_none _ _ _ (hunch.2.trans h2)).trans (by simp [h2])
    · exact hQstep e s hq
  refine foldl_through_all P Q _ e es he ?_ hTstep ?_ st (Or.inl ⟨rfl, rfl⟩)
  · intro e' _ s hs
    rcases hs with hunch | hq
    · by_cases hk : ((n0, e) : String × String) = (n0, e')
      · have he' : e = e' := congrArg Prod.snd hk
        subst he'
        exact Or.inr (hTstep s (Or.inl hunch))
      · exact Or.inl ⟨by rw [dlookup_dsetd_ne _ _ _ _ hk]; exact hunch.1,
          by rw [dlookup_dsetd_ne _ _ _ _ hk]; exact hunch.2⟩
    · exact Or.inr (hQstep e' s hq)
  · intro e' _ s hs
    exact hQstep e' s hs

theorem regasSetdStep_other (es : List String) (n0 : String) (st : RMap × RMap)
    (n1 e1 : String) (hne : n1 ≠ n0) :
    dlookup (regasSetdStep es st n0).1 (n1, e1) = dlookup st.1 (n1, e1)
    ∧ dlookup (regasSetdStep es st n0).2 (n1, e1) = dlookup st.2 (n1, e1) := by
  refine foldl_preserve
    (fun st2 => dlookup st2.1 (n1, e1) = dlookup st.1 (n1, e1)
      ∧ dlookup st2.2 (n1, e1) = dlookup st.2 (n1, e1)) _ es ?_ st ⟨rfl, rfl⟩
  intro e' _ s hs
  have hk : ((n1, e1) : String × String) ≠ (n0, e') := fun h => hne (congrArg Prod.fst h)
  exact ⟨by rw [dlookup_dsetd_ne _ _ _ _ hk]; exact hs.1,
    by rw [dlookup_dsetd_ne _ _ _ _ hk]; exact hs.2⟩

theorem regasSetdFold_hit (allN es : List String) (n e : String) (hn : n ∈ allN)
    (he : e ∈ es) (st : RMap × RMap) :
    dlookup (allN.foldl (regasSetdStep es) st).1 (n, e)
      = some ((dlookup st.1 (n, e)).getD (regasDefaultClr e))
    ∧ dlookup (allN.foldl (regasSetdStep es) st).2 (n, e)
      = some ((dlookup st.2 (n, e)).getD 0) := by
  set Q : RMap × RMap → Prop := fun st2 =>
    dlookup st2.1 (n, e) = some ((dlookup st.1 (n, e)).getD (regasDefaultClr e))
    ∧ dlookup st2.2 (n, e) = some ((dlookup st.2 (n, e)).getD 0) with hQ
  set P : RMap × RMap → Prop := fun st2 =>
    (dlookup st2.1 (n, e) = dlookup st.1 (n, e)
      ∧ dlookup st2.2 (n, e) = dlookup st.2 (n, e)) ∨ Q st2 with hP
  have hQpres : ∀ n0 : String, ∀ s, Q s → Q (regasSetdStep es s n0) := by
    intro n0 s hs
    by_cases hn0 : n = n0
    · subst hn0
      have := regasSetdStep_hit es n s e he
      rw [hs.1, hs.2] at this
      simpa using this
    · have := regasSetdStep_other es n0 s n e hn0
      exact ⟨this.1.trans hs.1, this.2.trans hs.2⟩
  have hT : ∀ s, P s → Q (regasSetdStep es s n) := by
    intro s hs
    rcases hs with hunch | hq
    · have := regasSetdStep_hit es n s e he
      rw [hunch.1, hunch.2] at this
      exact this
    · exact hQpres n s hq
  refine foldl_through_all P Q (regasSetdStep es) n allN hn ?_ hT ?_ st (Or.inl ⟨rfl, rfl⟩)
  · intro n0 _ s hs
    rcases hs with hunch | hq
    · by_cases hn0 : n = n0
      · subst hn0
        exact Or.inr (hT s (Or.inl hunch))
      · have := regasSetdStep_other es n0 s n e hn0
        exact Or.inl ⟨this.1.trans hunch.1, this.2.trans hunch.2⟩
    · exact Or.inr (hQpres n0 s hq)
  · intro n0 _ s hs
    exact hQpres n0 s hs

/-- C4: regasification defaults and the 2025-only override. For every node
`n` of the final node domain and fuel `e` of the fuel domain: if no 2025 row
matches `(n,e)`, then `c_lr(n,e)` is 1 for gas-canonicalizing fuels and 9999
otherwise, and `ub_r(n,e) = 0`; rows with other years never change the cell.
If 2025 rows match, the last one wins, with `cal_c` clamped to 1 when NaN or
non-positive (forced to 9999 for non-gas) and `ub` clamped to be >= 0. -/
theorem regas_defaults_and_2025_override (rows : List RegasRow) (ns es : List String)
    (n e : String) (hn : n ∈ ns ∨ n ∈ regasNodesOf rows) (he : e ∈ es) :
    ((rows.filter (regasMatches n e)) = [] →
        dlookup (extractRegasFinal rows ns es).1 (n, e) = some (regasDefaultClr e)
        ∧ dlookup (extractRegasFinal rows ns es).2 (n, e) = some 0)
    ∧ (∀ r, (rows.filter (regasMatches n e)).getLast? = some r →
        dlookup (extractRegasFinal rows ns es).1 (n, e)
          = some (if normalizeFuel e = "G" then regasCalC r else 9999)
        ∧ dlookup (extractRegasFinal rows ns es).2 (n, e) = some (regasUb r)) := by
  have hnAll : n ∈ regasAllNodes rows ns := by
    unfold regasAllNodes
    exact ((List.perm_insertionSort _ _).mem_iff).mpr
      (List.mem_dedup.mpr (List.mem_append.mpr hn))
  have hsetd := regasSetdFold_hit (regasAllNodes rows ns) es n e hnAll he
      (rows.foldl regasStep (regasInit ns es))
  unfold extractRegasFinal
  constructor
  · intro hemp
    have hrows := (regas_rows_fold n e rows (regasInit ns es)).1 hemp
    by_cases hns : n ∈ ns
    · have hi := regasInit_hit ns es n e hns he
      refine ⟨by rw [hsetd.1, hrows.1, hi.1]; rfl, by rw [hsetd.2, hrows.2, hi.2]; rfl⟩
    · have hn2 : n ∈ regasNodesOf rows := hn.resolve_left hns
      have hi := regasInit_none ns es n e hns
      refine ⟨by rw [hsetd.1, hrows.1, hi.1]; rfl, by rw [hsetd.2, hrows.2, hi.2]; rfl⟩
  · intro r hr
    have hrows := (regas_rows_fold n e rows (regasInit ns es)).2 r hr
    exact ⟨by rw [hsetd.1, hrows.1]; rfl, by rw [hsetd.2, hrows.2]; rfl⟩

/-- Sample regasification row: node N1, fuel label GAS, year 2025,
`cal_c` 5, negative `ub`. -/
def regasRowSample : RegasRow := ⟨"N1", "GAS", some 2025, some 5, some (-2)⟩

/-- C4 witness: with no rows, the minimal scenario gives
`c_lr(N1,G)=1`, `c_lr(N1,H)=9999`, `ub_r(N1,G)=0`; with the sample 2025 row,
`c_lr(N1,G)=5` and the negative `ub` is clamped to 0. -/
theorem regas_defaults_witness :
    dlookup (extractRegasFinal [] ["N1"] ["G", "H"]).1 ("N1", "G") = some 1
    ∧ dlookup (extractRegasFinal [] ["N1"] ["G", "H"]).1 ("N1", "H") = some 9999
    ∧ dlookup (extractRegasFinal [] ["N1"] ["G", "H"]).2 ("N1", "G") = some 0
    ∧ dlookup (extractRegasFinal [regasRowSample] ["N1"] ["G", "H"]).1 ("N1", "G") = some 5
    ∧ dlookup (extractRegasFinal [regasRowSample] ["N1"] ["G", "H"]).2 ("N1", "G") = some 0 :=
  ⟨((regas_defaults_and_2025_override [] ["N1"] ["G", "H"] "N1" "G"
      (Or.inl (by decide)) (by decide)).1 rfl).1,
    ((regas_defaults_and_2025_override [] ["N1"] ["G", "H"] "N1" "H"
      (Or.inl (by decide)) (by decide)).1 rfl).1,
    ((regas_defaults_and_2025_override [] ["N1"] ["G", "H"] "N1" "G"
      (Or.inl (by decide)) (by decide)).1 rfl).2,
    ((regas_defaults_and_2025_override [regasRowSample] ["N1"] ["G", "H"] "N1" "G"
      (Or.inl (by decide)) (by decide)).2 regasRowSample (by decide)).1,
    ((regas_defaults_and_2025_override [regasRowSample] ["N1"] ["G", "H"] "N1" "G"
      (Or.inl (by decide)) (by decide)).2 regasRowSample (by decide)).2⟩

/-! ## The compiled model (`build_base_model_with_cz`, `model.py`)

Set domains are the sorted lists built in STEP 2 of `model.py`; every pyomo
`Param` is total with its declared default already applied, so parameters are
embedded as total functions.  Each constraint family below transcribes one
`pyo.Constraint` rule, including its `Constraint.Skip` guards. -/

/-- Model data: set domains and parameters used by the embedded families. -/
structure MData where
  Z : List String
  E : List String
  N : List String
  A : List String
  Y : List Int
  H : List Int
  cap_a : String → String → Int → ℚ
  cap_ww : String → String → Int → ℚ
  h2_ready : String → String → ℚ
  dmd : String → String → Int → Int → ℚ

/-- Assignment to the decision variables of the embedded families. -/
structure Assign where
  K_A : String → String → Int → ℚ
  K_W : String → String → Int → ℚ
  B_AR : String → String → String → Int → ℚ
  K_RA : String → String → String → Int → ℚ
  B_WR : String → String → String → Int → ℚ
  K_RW : String → String → String → Int → ℚ
  Q_S : String → String → Int → Int → ℚ
  ZDS : String → String → String → Int → Int → ℚ

/-- `first_y = y_order[0]` (`model.py` line 567). -/
def firstY (d : MData) : Option Int := d.Y.head?

/-- `z_dmd = "ZD2" if "ZD2" in z_domain else (z_domain[0] if z_domain else
None)` (`model.py` line 114). -/
def zDmd (Z : List String) : Option String :=
  if "ZD2" ∈ Z then some "ZD2" else Z.head?

/-- `not_h(e) = 1 - int(str(e).upper() == "H")` (`model.py` lines 283-289). -/
def notH (e : String) : Prop := ¬ strUpper e = "H"

instance (e : String) : Decidable (notH e) := by
  unfold notH
  infer_instance

/-- `k_a_init` (lines 570-579): `K_A.fx` at the first year. -/
def kAInit (d : MData) (v : Assign) : Prop :=
  ∀ a ∈ d.A, ∀ e ∈ d.E, ∀ y ∈ d.Y, firstY d = some y → v.K_A a e y = d.cap_a a e y

/-- `k_w_init` (lines 581-590): `K_W.fx` at the first year. -/
def kWInit (d : MData) (v : Assign) : Prop :=
  ∀ n ∈ d.N, ∀ e ∈ d.E, ∀ y ∈ d.Y, firstY d = some y → v.K_W n e y = d.cap_ww n e y

/-- `b_ar_fix_first` (lines 706-716): `B_AR = 0` at the first year. -/
def bArFixFirst (d : MData) (v : Assign) : Prop :=
  ∀ a ∈ d.A, ∀ e ∈ d.E, ∀ f ∈ d.E, ∀ y ∈ d.Y, firstY d = some y → v.B_AR a e f y = 0

/-- `k_ra_fix_first` (lines 717-727): `K_RA = 0` at the first year. -/
def kRaFixFirst (d : MData) (v : Assign) : Prop :=
  ∀ a ∈ d.A, ∀ e ∈ d.E, ∀ f ∈ d.E, ∀ y ∈ d.Y, firstY d = some y → v.K_RA a e f y = 0

/-- `b_wr_fix_first` (lines 728-738). -/
def bWrFixFirst (d : MData) (v : Assign) : Prop :=
  ∀ n ∈ d.N, ∀ e ∈ d.E, ∀ f ∈ d.E, ∀ y ∈ d.Y, firstY d = some y → v.B_WR n e f y = 0

/-- `k_rw_fix_first` (lines 739-748). -/
def kRwFixFirst (d : MData) (v : Assign) : Prop :=
  ∀ n ∈ d.N, ∀ e ∈ d.E, ∀ f ∈ d.E, ∀ y ∈ d.Y, firstY d = some y → v.K_RW n e f y = 0

/-- `sos_a` (lines 682-693): one-hot repurposing destination after year 1. -/
def sosA (d : MData) (v : Assign) : Prop :=
  ∀ a ∈ d.A, ∀ e ∈ d.E, ∀ y ∈ d.Y, firstY d ≠ some y →
    ((d.E.map fun f => v.B_AR a e f y).sum) = 1

/-- `sos_w` (lines 694-704). -/
def sosW (d : MData) (v : Assign) : Prop :=
  ∀ n ∈ d.N, ∀ e ∈ d.E, ∀ y ∈ d.Y, firstY d ≠ some y →
    ((d.E.map fun f => v.B_WR n e f y).sum) = 1

/-- `k_w_fix_h2_ready` (lines 750-760): when `"G"` is a model fuel and
`h2_ready(n,'G') <= 0`, the gas storage stock is pinned to `cap_ww` in every
year (not only the first). -/
def kWFixH2Ready (d : MData) (v : Assign) : Prop :=
  ∀ n ∈ d.N, ∀ y ∈ d.Y, "G" ∈ d.E → d.h2_ready n "G" ≤ 0 →
    v.K_W n "G" y = d.cap_ww n "G" y

/-- `dmd_n3` (lines 832-845): non-hydrogen positive-demand balance, charged
to the selected penalty class; skipped entirely when `z_dmd` is `None`. -/
def dmdN3 (d : MData) (v : Assign) : Prop :=
  ∀ zd ∈ (zDmd d.Z).toList, ∀ n ∈ d.N, ∀ e ∈ d.E, ∀ y ∈ d.Y, ∀ h ∈ d.H,
    notH e → 0 < d.dmd n e y h →
      v.Q_S n e y h = d.dmd n e y h - v.ZDS zd n e y h

/-- `qs_zero_nonh` (lines 846-858): served demand fixed to 0 on non-hydrogen
cells with non-positive demand (independent of the penalty domain). -/
def qsZeroNonH (d : MData) (v : Assign) : Prop :=
  ∀ n ∈ d.N, ∀ e ∈ d.E, ∀ y ∈ d.Y, ∀ h ∈ d.H,
    notH e → d.dmd n e y h ≤ 0 → v.Q_S n e y h = 0

/-- `zd2_zero_nonh` (lines 859-871): the selected class slack fixed to 0 on
non-hydrogen cells without demand; skipped when `z_dmd` is `None`. -/
def zd2ZeroNonH (d : MData) (v : Assign) : Prop :=
  ∀ zd ∈ (zDmd d.Z).toList, ∀ n ∈ d.N, ∀ e ∈ d.E, ∀ y ∈ d.Y, ∀ h ∈ d.H,
    notH e → d.dmd n e y h ≤ 0 → v.ZDS zd n e y h = 0

/-- The embedded constraint families of the compiled model.  An assignment
feasible for the full model satisfies in particular this conjunction. -/
def Satisfies (d : MData) (v : Assign) : Prop :=
  kAInit d v ∧ kWInit d v ∧ bArFixFirst d v ∧ kRaFixFirst d v
  ∧ bWrFixFirst d v ∧ kRwFixFirst d v ∧ sosA d v ∧ sosW d v
  ∧ kWFixH2Ready d v ∧ dmdN3 d v ∧ qsZeroNonH d v ∧ zd2ZeroNonH d v

theorem firstY_mem (d : MData) (y0 : Int) (h : firstY d = some y0) : y0 ∈ d.Y := by
  cases hY : d.Y with
  | nil =>
    rw [firstY, hY] at h
    simp at h
  | cons a t =>
    rw [firstY, hY] at h
    simp at h
    rw [← h]
    exact List.mem_cons_self a t

/-- C6: first-year fixity. Every assignment satisfying the model constraints
has `K_A(a,e,Y[0]) = cap_a(a,e,Y[0])` for all arcs and fuels, and
`B_AR(a,e,f,Y[0]) = 0`, `K_RA(a,e,f,Y[0]) = 0` for all `a,e,f`. -/
theorem first_year_fixity (d : MData) (v : Assign) (hs : Satisfies d v)
    (y0 : Int) (hy0 : firstY d = some y0) :
    ∀ a ∈ d.A, ∀ e ∈ d.E,
      v.K_A a e y0 = d.cap_a a e y0
      ∧ (∀ f ∈ d.E, v.B_AR a e f y0 = 0 ∧ v.K_RA a e f y0 = 0) := by
  obtain ⟨h1, _, h3, h4, _⟩ := hs
  have hymem : y0 ∈ d.Y := firstY_mem d y0 hy0
  intro a ha e he
  exact ⟨h1 a ha e he y0 hymem hy0,
    fun f hf => ⟨h3 a ha e he f hf y0 hymem hy0, h4 a ha e he f hf y0 hymem hy0⟩⟩

/-- C9: non-H2-ready gas storage is pinned in every period. If `"G"` is in
the fuel domain and `h2_ready(n,'G') <= 0`, every feasible assignment has
`K_W(n,'G',y) = cap_ww(n,'G',y)` for every year `y`, not only the first. -/
theorem gas_storage_pinned_all_years (d : MData) (v : Assign) (hs : Satisfies d v)
    (hG : "G" ∈ d.E) (n : String) (hn : n ∈ d.N) (hh2 : d.h2_ready n "G" ≤ 0)
    (y : Int) (hy : y ∈ d.Y) :
    v.K_W n "G" y = d.cap_ww n "G" y := by
  obtain ⟨_, _, _, _, _, _, _, _, h9, _⟩ := hs
  exact h9 n hn y hy hG hh2

/-- C10: demand-slack penalty-class selection. The non-hydrogen demand
constraint charges `ZD2` when it is in the penalty domain, else the
alphabetically first class; with an empty penalty domain the `dmd_n3` and
`zd2_zero_nonh` families are omitted entirely (they hold for every
assignment). -/
theorem demand_penalty_class_selection (d : MData)
    (hsorted : List.Sorted (fun a b : String => a ≤ b) d.Z) :
    ("ZD2" ∈ d.Z → zDmd d.Z = some "ZD2")
    ∧ ("ZD2" ∉ d.Z → ∀ z0, d.Z.head? = some z0 →
        zDmd d.Z = some z0 ∧ ∀ z ∈ d.Z, z0 ≤ z)
    ∧ (d.Z = [] → ∀ v : Assign, dmdN3 d v ∧ zd2ZeroNonH d v) := by
  refine ⟨fun h => by simp [zDmd, h], fun h z0 hz0 => ⟨by simp [zDmd, h, hz0], ?_⟩,
    fun h v => ?_⟩
  · intro z hz
    cases hZ : d.Z with
    | nil =>
      rw [hZ] at hz
      simp at hz
    | cons a t =>
      rw [hZ] at hz0
      simp at hz0
      rw [hZ] at hsorted
      rw [hZ] at hz
      rcases List.mem_cons.mp hz with hza | hzt
      · rw [hza, ← hz0]
      · rw [← hz0]
        exact (List.sorted_cons.mp hsorted).1 z hzt
  · have hzd : zDmd d.Z = none := by simp [zDmd, h]
    constructor
    · intro zd hzd2
      rw [hzd] at hzd2
      simp at hzd2
    · intro zd hzd2
      rw [hzd] at hzd2
      simp at hzd2

/-- Sample model data: one node, one arc, gas only, years 2025/2030. -/
def mdl0 : MData :=
  ⟨["ZD2"], ["G"], ["N1"], ["P1"], [2025, 2030], [1],
    fun _ _ y => if y = 2025 then 5 else 0,
    fun _ _ _ => 0,
    fun _ _ => 0,
    fun _ _ _ _ => 0⟩

/-- Sample feasible assignment for `mdl0`. -/
def asg0 : Assign :=
  ⟨fun _ _ y => if y = 2025 then 5 else 0,
    fun _ _ _ => 0,
    fun _ _ _ y => if y = 2025 then 0 else 1,
    fun _ _ _ _ => 0,
    fun _ _ _ y => if y = 2025 then 0 else 1,
    fun _ _ _ _ => 0,
    fun _ _ _ _ => 0,
    fun _ _ _ _ _ => 0⟩

theorem satisfies0 : Satisfies mdl0 asg0 := by
  unfold Satisfies kAInit kWInit bArFixFirst kRaFixFirst bWrFixFirst kRwFixFirst sosA sosW kWFixH2Ready dmdN3 qsZeroNonH zd2ZeroNonH
  norm_num [mdl0, asg0, firstY, zDmd, notH]

/-- C6 witness: in the sample model, the first year 2025 has
`K_A = cap_a = 5` and zero repurposing decisions. -/
theorem first_year_fixity_witness :
    asg0.K_A "P1" "G" 2025 = mdl0.cap_a "P1" "G" 2025
    ∧ asg0.B_AR "P1" "G" "G" 2025 = 0 ∧ asg0.K_RA "P1" "G" "G" 2025 = 0 :=
  have h := first_year_fixity mdl0 asg0 satisfies0 2025 rfl "P1" (by decide) "G" (by decide)
  ⟨h.1, (h.2 "G" (by decide)).1, (h.2 "G" (by decide)).2⟩

/-- C9 witness: the sample node is not H2-ready, so its gas storage stays at
`cap_ww` also in the second year 2030. -/
theorem gas_storage_pinned_witness :
    asg0.K_W "N1" "G" 2030 = mdl0.cap_ww "N1" "G" 2030 :=
  gas_storage_pinned_all_years mdl0 asg0 satisfies0 (by decide) "N1" (by decide)
    (by decide) 2030 (by decide)

/-- Sample model data with a configurable penalty domain. -/
def mdlZ (zs : List String) : MData :=
  ⟨zs, ["G"], ["N1"], ["P1"], [2025, 2030], [1],
    fun _ _ _ => 0, fun _ _ _ => 0, fun _ _ => 0, fun _ _ _ _ => 0⟩

/-- C10 witness: `ZD2` is selected when present, the alphabetically first
class otherwise, and an empty penalty domain leaves the demand families
vacuous for every assignment (e.g. `asg0`). -/
theorem demand_penalty_class_witness :
    zDmd (mdlZ ["ZA", "ZD2"]).Z = some "ZD2"
    ∧ zDmd (mdlZ ["ZA", "ZB"]).Z = some "ZA"
    ∧ (dmdN3 (mdlZ []) asg0 ∧ zd2ZeroNonH (mdlZ []) asg0) :=
  ⟨(demand_penalty_class_selection (mdlZ ["ZA", "ZD2"])
        (by simp [mdlZ, List.sorted_cons]; decide)).1 (by decide),
    ((demand_penalty_class_selection (mdlZ ["ZA", "ZB"])
        (by simp [mdlZ, List.sorted_cons]; decide)).2.1 (by decide) "ZA" rfl).1,
    (demand_penalty_class_selection (mdlZ []) (by simp [mdlZ])).2.2 rfl asg0⟩

/-! ## Arc extraction passes (`_extract_arc_data`, lines 645-700)

The per-arc construction loops produce sparse dictionaries `cap_a, c_a, c_ax,
c_ab, c_ar, f_ar, f_ab, e_a, is_bid`; the passes below embed, over an
arbitrary such pre-pass state, the opposite-arc propagation (lines 645-657),
the repurposing propagation (lines 659-672), the `setdefault` completion
(lines 674-689) and the self-repurposing zeroing (lines 691-695), in source
order. -/

/-- The mutable dictionaries of `_extract_arc_data` touched by its passes. -/
structure ArcState where
  cap_a : List ((String × String × Int) × ℚ)
  c_a : List ((String × String × Int) × ℚ)
  c_ax : List ((String × String × Int) × ℚ)
  c_ab : List ((String × String × Int) × ℚ)
  c_ar : List ((String × String × String × Int) × ℚ)
  f_ar : List ((String × String × String × Int) × ℚ)
  f_ab : List ((String × Int) × ℚ)
  e_a : List ((String × String) × ℚ)
  is_bid : List (String × Int)
deriving DecidableEq

/-- The tolerance `1e-5` of lines 651 and 670 (as a rational literal, so that
the kernel can evaluate comparisons against it). -/
def oppTol : ℚ := ⟨1, 100000, by norm_num, Nat.coprime_one_left _⟩

/-- Body of the opposite-arc propagation (lines 651-657): when the forward
cost is positive and the reverse cost approximately zero, the reverse arc
inherits cost, expansion cost, bidirectional costs, efficiency and the
`is_bid` flag of the forward arc. -/
def oppCell (ai ao f : String) (y : Int) (st : ArcState) : ArcState :=
  if 0 < dgetD st.c_a (ai, f, y) 0 ∧ dgetD st.c_a (ao, f, y) 0 ≤ oppTol then
    { st with
      c_a := dinsert st.c_a (ao, f, y) (dgetD st.c_a (ai, f, y) 0)
      c_ax := dinsert st.c_ax (ao, f, y) (dgetD st.c_ax (ai, f, y) 0)
      c_ab := dinsert st.c_ab (ao, f, y) (dgetD st.c_ab (ai, f, y) 0)
      f_ab := dinsert st.f_ab (ao, y) (dgetD st.f_ab (ai, y) 0)
      e_a := dinsert st.e_a (ao, f)
          ((dlookup st.e_a (ai, f)).getD ((dlookup st.e_a (ao, f)).getD 1))
      is_bid := dinsert st.is_bid ao
          ((dlookup st.is_bid ai).getD ((dlookup st.is_bid ao).getD 0)) }
  else st

/-- Fuel/year loops of the opposite-arc propagation (lines 649-650). -/
def oppPair (F : List String) (Ys : List Int) (ai ao : String) (st : ArcState) : ArcState :=
  F.foldl (fun s f => Ys.foldl (fun s2 y => oppCell ai ao f y s2) s) st

/-- Inner arc loop (lines 646-648): run the pair body when `opp(ai,ao)=1`. -/
def oppOuterStep (A F : List String) (Ys : List Int) (opp : List ((String × String) × Int))
    (st : ArcState) (ai : String) : ArcState :=
  A.foldl (fun s ao => if dgetD opp (ai, ao) 0 = 1 then oppPair F Ys ai ao s else s) st

/-- The full opposite-arc propagation pass (lines 645-657). -/
def oppPass (A F : List String) (Ys : List Int) (opp : List ((String × String) × Int))
    (st : ArcState) : ArcState :=
  A.foldl (oppOuterStep A F Ys opp) st

/-- Body of the repurposing propagation (lines 663-672). -/
def repCell (ai ao e f : String) (y : Int) (st : ArcState) : ArcState :=
  if (0 < dgetD st.c_ar (ai, e, f, y) 0 ∧ dgetD st.c_ar (ao, e, f, y) 0 ≤ oppTol)
      ∨ (0 < dgetD st.f_ar (ai, e, f, y) 0 ∧ dgetD st.f_ar (ao, e, f, y) 0 ≤ oppTol) then
    { st with
      c_ar := dinsert st.c_ar (ao, e, f, y) (dgetD st.c_ar (ai, e, f, y) 0)
      f_ar := dinsert st.f_ar (ao, e, f, y) (dgetD st.f_ar (ai, e, f, y) 0) }
  else st

/-- Fuel/fuel/year loops of the repurposing propagation (lines 663-665). -/
def repPair (F : List String) (Ys : List Int) (ai ao : String) (st : ArcState) : ArcState :=
  F.foldl (fun s e => F.foldl (fun s2 f => Ys.foldl (fun s3 y => repCell ai ao e f y s3) s2) s) st

/-- The full repurposing propagation pass (lines 659-672). -/
def repPass (A F : List String) (Ys : List Int) (opp : List ((String × String) × Int))
    (st : ArcState) : ArcState :=
  A.foldl (fun s ai =>
    A.foldl (fun s2 ao => if dgetD opp (ai, ao) 0 = 1 then repPair F Ys ai ao s2 else s2) s) st

/-- `setdefault` year loop for the flow parameters (lines 679-684). -/
def defaultsInner1 (Ys : List Int) (a f : String) (s : ArcState) : ArcState :=
  Ys.foldl (fun s2 y =>
    { s2 with
      cap_a := dsetd s2.cap_a (a, f, y) 0
      c_a := dsetd s2.c_a (a, f, y) 0
      c_ax := dsetd s2.c_ax (a, f, y) 0
      c_ab := dsetd s2.c_ab (a, f, y) 0
      f_ab := dsetd s2.f_ab (a, y) 0 }) s

/-- `setdefault` loops for the repurposing parameters (lines 685-689). -/
def defaultsInner2 (F : List String) (Ys : List Int) (a e : String) (s : ArcState) : ArcState :=
  F.foldl (fun s2 f => Ys.foldl (fun s3 y =>
    { s3 with
      c_ar := dsetd s3.c_ar (a, e, f, y) 0
      f_ar := dsetd s3.f_ar (a, e, f, y) 0 }) s2) s

/-- Per-arc `setdefault` completion (lines 675-689). -/
def defaultsStep (F : List String) (Ys : List Int) (s : ArcState) (a : String) : ArcState :=
  let s1 := { s with is_bid := dsetd s.is_bid a 0 }
  let s2 := F.foldl (fun s2 f =>
    defaultsInner1 Ys a f { s2 with e_a := dsetd s2.e_a (a, f) 1 }) s1
  F.foldl (fun s3 e => defaultsInner2 F Ys a e s3) s2

/-- The `setdefault` completion pass (lines 674-689). -/
def defaultsPass (A F : List String) (Ys : List Int) (s : ArcState) : ArcState :=
  A.foldl (defaultsStep F Ys) s

/-- Per-arc self-repurposing zeroing (lines 692-695). -/
def selfZeroStep (F : List String) (Ys : List Int) (s : ArcState) (a : String) : ArcState :=
  F.foldl (fun s2 e => Ys.foldl (fun s3 y =>
    { s3 with
      c_ar := dinsert s3.c_ar (a, e, e, y) 0
      f_ar := dinsert s3.f_ar (a, e, e, y) 0 }) s2) s

/-- The self-repurposing zeroing pass (lines 691-695), run last. -/
def selfZeroPass (A F : List String) (Ys : List Int) (s : ArcState) : ArcState :=
  A.foldl (selfZeroStep F Ys) s

/-- All passes of `_extract_arc_data` after the per-arc construction loops,
in source order. -/
def arcPasses (A F : List String) (Ys : List Int) (opp : List ((String × String) × Int))
    (st : ArcState) : ArcState :=
  selfZeroPass A F Ys (defaultsPass A F Ys (repPass A F Ys opp (oppPass A F Ys opp st)))

theorem oppTol_eq : oppTol = 1 / 100000 := by
  apply Rat.ext <;> norm_num [oppTol]

theorem oppTol_nonneg : (0 : ℚ) ≤ oppTol := by
  rw [oppTol_eq]
  norm_num

/-- C2: self-repurposing is always zero after arc extraction. For every arc,
fuel and year of the final domains, the last pass forces
`c_ar(a,e,e,y) = 0` and `f_ar(a,e,e,y) = 0`, whatever the earlier passes
(including the opposite-arc propagation) produced. -/
theorem self_repurposing_zero (A F : List String) (Ys : List Int)
    (opp : List ((String × String) × Int)) (st : ArcState)
    (a : String) (ha : a ∈ A) (e : String) (he : e ∈ F) (y : Int) (hy : y ∈ Ys) :
    dlookup (arcPasses A F Ys opp st).c_ar (a, e, e, y) = some 0
    ∧ dlookup (arcPasses A F Ys opp st).f_ar (a, e, e, y) = some 0 := by
  set Q : ArcState → Prop := fun s =>
    dlookup s.c_ar (a, e, e, y) = some 0 ∧ dlookup s.f_ar (a, e, e, y) = some 0 with hQ
  have hcell : ∀ (a0 e0 : String) (y0 : Int) (s : ArcState), Q s →
      Q { s with
          c_ar := dinsert s.c_ar (a0, e0, e0, y0) 0
          f_ar := dinsert s.f_ar (a0, e0, e0, y0) 0 } := by
    intro a0 e0 y0 s hs
    by_cases hk : ((a, e, e, y) : String × String × String × Int) = (a0, e0, e0, y0)
    · exact ⟨by rw [hk, dlookup_dinsert_self], by rw [hk, dlookup_dinsert_self]⟩
    · exact ⟨by rw [dlookup_dinsert_ne _ _ _ _ hk]; exact hs.1,
        by rw [dlookup_dinsert_ne _ _ _ _ hk]; exact hs.2⟩
  have hstepQ : ∀ (a0 : String) (s : ArcState), Q s → Q (selfZeroStep F Ys s a0) := by
    intro a0 s hs
    refine foldl_preserve Q _ F ?_ s hs
    intro e0 _ s2 hs2
    refine foldl_preserve Q _ Ys ?_ s2 hs2
    intro y0 _ s3 hs3
    exact hcell a0 e0 y0 s3 hs3
  have hstepT : ∀ s : ArcState, Q (selfZeroStep F Ys s a) := by
    intro s
    refine foldl_through_all (fun _ => True) Q _ e F he (fun _ _ _ _ => trivial) ?_ ?_ s trivial
    · intro s2 _
      refine foldl_through_all (fun _ => True) Q _ y Ys hy (fun _ _ _ _ => trivial) ?_ ?_ s2 trivial
      · intro s3 _
        exact ⟨dlookup_dinsert_self _ _ _, dlookup_dinsert_self _ _ _⟩
      · intro y0 _ s3 hs3
        exact hcell a e y0 s3 hs3
    · intro e0 _ s2 hs2
      refine foldl_preserve Q _ Ys ?_ s2 hs2
      intro y0 _ s3 hs3
      exact hcell a e0 y0 s3 hs3
  exact foldl_through_all (fun _ => True) Q (selfZeroStep F Ys) a A ha
    (fun _ _ _ _ => trivial) (fun s _ => hstepT s) (fun a0 _ s hs => hstepQ a0 s hs)
    (defaultsPass A F Ys (repPass A F Ys opp (oppPass A F Ys opp st))) trivial

/-- C2 witness: concrete run of all passes on a one-arc, one-fuel state. -/
theorem self_repurposing_zero_witness :
    dlookup (arcPasses ["P"] ["G"] [2025] [] ⟨[], [], [], [], [], [], [], [], []⟩).c_ar
        ("P", "G", "G", 2025) = some 0
    ∧ dlookup (arcPasses ["P"] ["G"] [2025] [] ⟨[], [], [], [], [], [], [], [], []⟩).f_ar
        ("P", "G", "G", 2025) = some 0 :=
  self_repurposing_zero ["P"] ["G"] [2025] [] ⟨[], [], [], [], [], [], [], [], []⟩
    "P" (by decide) "G" (by decide) 2025 (by decide)

/-- Pre-pass arc state refuting C1: two parallel forward arcs `A1` (cost 2)
and `A2` (cost 7) from N1 to N2, and one reverse arc `B` (cost 0). -/
def ceSt : ArcState :=
  ⟨[], [((("A1", "G", 2025) : String × String × Int), (2 : ℚ)),
      ((("A2", "G", 2025) : String × String × Int), (7 : ℚ)),
      ((("B", "G", 2025) : String × String × Int), (0 : ℚ))],
    [], [], [], [], [], [], []⟩

/-- Opposite-arc relation of `ceSt`: `B` is opposite to both `A1` and `A2`. -/
def ceOpp : List ((String × String) × Int) :=
  [(("A1", "B"), 1), (("A2", "B"), 1), (("B", "A1"), 1), (("B", "A2"), 1)]

set_option maxRecDepth 4000 in
/-- C1 counterexample: with two forward arcs `A1` (cost 2, processed first)
and `A2` (cost 7) opposite to the same reverse arc `B` (cost 0), the pair
`(ai,ao) = (A2,B)` satisfies the claim's hypotheses — `opp(A2,B)=1`,
`c_a(A2,G,2025) > 0`, `c_a(B,G,2025) ≈ 0` before propagation — yet after
extraction `c_a(B,G,2025) = 2` (inherited from `A1`), not `c_a(A2,G,2025) = 7`. -/
theorem opposite_arc_inherit_refuted :
    dgetD ceOpp ("A2", "B") 0 = 1
    ∧ 0 < dgetD ceSt.c_a ("A2", "G", 2025) 0
    ∧ dgetD ceSt.c_a ("B", "G", 2025) 0 ≤ oppTol
    ∧ dgetD (arcPasses ["A1", "A2", "B"] ["G"] [2025] ceOpp ceSt).c_a ("B", "G", 2025) 0 = 2
    ∧ dgetD (arcPasses ["A1", "A2", "B"] ["G"] [2025] ceOpp ceSt).c_a ("B", "G", 2025) 0
        ≠ dgetD ceSt.c_a ("A2", "G", 2025) 0 := by
  refine ⟨by decide, by decide, by decide, by decide, by decide⟩

/-- Agreement of two arc states on every entry (of the six dictionaries the
opposite-arc pass touches) whose arc component is `x`. -/
def agreeAt (s t : ArcState) (x : String) : Prop :=
  (∀ f y, dlookup s.c_a (x, f, y) = dlookup t.c_a (x, f, y))
  ∧ (∀ f y, dlookup s.c_ax (x, f, y) = dlookup t.c_ax (x, f, y))
  ∧ (∀ f y, dlookup s.c_ab (x, f, y) = dlookup t.c_ab (x, f, y))
  ∧ (∀ y, dlookup s.f_ab (x, y) = dlookup t.f_ab (x, y))
  ∧ (∀ f, dlookup s.e_a (x, f) = dlookup t.e_a (x, f))
  ∧ dlookup s.is_bid x = dlookup t.is_bid x

theorem agreeAt_refl (s : ArcState) (x : String) : agreeAt s s x :=
  ⟨fun _ _ => rfl, fun _ _ => rfl, fun _ _ => rfl, fun _ => rfl, fun _ => rfl, rfl⟩

theorem agreeAt_trans {s t u : ArcState} {x : String}
    (h1 : agreeAt s t x) (h2 : agreeAt t u x) : agreeAt s u x :=
  ⟨fun f y => (h1.1 f y).trans (h2.1 f y),
    fun f y => (h1.2.1 f y).trans (h2.2.1 f y),
    fun f y => (h1.2.2.1 f y).trans (h2.2.2.1 f y),
    fun y => (h1.2.2.2.1 y).trans (h2.2.2.2.1 y),
    fun f => (h1.2.2.2.2.1 f).trans (h2.2.2.2.2.1 f),
    h1.2.2.2.2.2.trans h2.2.2.2.2.2⟩

/-- `oppCell` only writes entries of the target arc `ao`. -/
theorem oppCell_frame (ai ao f : String) (y : Int) (st : ArcState) (x : String)
    (hx : x ≠ ao) : agreeAt (oppCell ai ao f y st) st x := by
  unfold oppCell
  by_cases h : 0 < dgetD st.c_a (ai, f, y) 0 ∧ dgetD st.c_a (ao, f, y) 0 ≤ oppTol
  · rw [if_pos h]
    have k3 : ∀ (f' : String) (y' : Int), ((x, f', y') : String × String × Int) ≠ (ao, f, y) :=
      fun f' y' hk => hx (congrArg (fun p => p.1) hk)
    have k2 : ∀ y' : Int, ((x, y') : String × Int) ≠ (ao, y) :=
      fun y' hk => hx (congrArg (fun p => p.1) hk)
    have k1 : ∀ f' : String, ((x, f') : String × String) ≠ (ao, f) :=
      fun f' hk => hx (congrArg (fun p => p.1) hk)
    exact ⟨fun f' y' => dlookup_dinsert_ne _ _ _ _ (k3 f' y'),
      fun f' y' => dlookup_dinsert_ne _ _ _ _ (k3 f' y'),
      fun f' y' => dlookup_dinsert_ne _ _ _ _ (k3 f' y'),
      fun y' => dlookup_dinsert_ne _ _ _ _ (k2 y'),
      fun f' => dlookup_dinsert_ne _ _ _ _ (k1 f'),
      dlookup_dinsert_ne _ _ _ _ hx⟩
  · rw [if_neg h]
    exact agreeAt_refl st x

theorem oppPair_frame (F : List String) (Ys : List Int) (ai ao : String) (st : ArcState)
    (x : String) (hx : x ≠ ao) : agreeAt (oppPair F Ys ai ao st) st x := by
  refine foldl_preserve (fun s => agreeAt s st x) _ F ?_ st (agreeAt_refl st x)
  intro f _ s hs
  refine foldl_preserve (fun s2 => agreeAt s2 st x) _ Ys ?_ s hs
  intro y _ s2 hs2
  exact agreeAt_trans (oppCell_frame ai ao f y s2 x hx) hs2

/-- When the source arc has no positive `c_a` cell, the pair body fires
nowhere and the state is unchanged. -/
theorem oppPair_nofire (F : List String) (Ys : List Int) (ai ao : String) (st : ArcState)
    (h : ∀ f ∈ F, ∀ y ∈ Ys, dgetD st.c_a (ai, f, y) 0 ≤ 0) :
    oppPair F Ys ai ao st = st := by
  refine foldl_preserve (fun s => s = st) _ F ?_ st rfl
  intro f hf s hs
  refine foldl_preserve (fun s2 => s2 = st) _ Ys ?_ s hs
  intro y hy s2 hs2
  subst hs2
  unfold oppCell
  rw [if_neg]
  intro hc
  exact absurd hc.1 (not_lt.mpr (h f hf y hy))

theorem getD_self_stable {α : Type} (o1 : Option α) (z : α) :
    o1.getD (o1.getD z) = o1.getD z := by
  cases o1 <;> rfl

/-- Value the reverse arc inherits for `e_a` (line 656 fallback chain). -/
def tEa (st : ArcState) (ai ao f : String) : ℚ :=
  (dlookup st.e_a (ai, f)).getD ((dlookup st.e_a (ao, f)).getD 1)

/-- Value the reverse arc inherits for `is_bid` (line 657 fallback chain). -/
def tIb (st : ArcState) (ai ao : String) : Int :=
  (dlookup st.is_bid ai).getD ((dlookup st.is_bid ao).getD 0)

/-- Post-fire values of the reverse arc `ao` at cell `(f, y)`. -/
def oppTargets (st : ArcState) (ai ao f : String) (y : Int) (s : ArcState) : Prop :=
  dlookup s.c_a (ao, f, y) = some (dgetD st.c_a (ai, f, y) 0)
  ∧ dlookup s.c_ax (ao, f, y) = some (dgetD st.c_ax (ai, f, y) 0)
  ∧ dlookup s.c_ab (ao, f, y) = some (dgetD st.c_ab (ai, f, y) 0)
  ∧ dlookup s.f_ab (ao, y) = some (dgetD st.f_ab (ai, y) 0)
  ∧ dlookup s.e_a (ao, f) = some (tEa st ai ao f)
  ∧ dlookup s.is_bid ao = some (tIb st ai ao)

/-- Invariant before the designated cell fires: the cell-keyed entries of the
reverse arc are untouched, while the arc-keyed entries may already hold their
inherited values (written by sibling cells of the same pair body). -/
def oppPre (st : ArcState) (ai ao f : String) (y : Int) (s : ArcState) : Prop :=
  dlookup s.c_a (ao, f, y) = dlookup st.c_a (ao, f, y)
  ∧ dlookup s.c_ax (ao, f, y) = dlookup st.c_ax (ao, f, y)
  ∧ dlookup s.c_ab (ao, f, y) = dlookup st.c_ab (ao, f, y)
  ∧ (dlookup s.f_ab (ao, y) = dlookup st.f_ab (ao, y)
      ∨ dlookup s.f_ab (ao, y) = some (dgetD st.f_ab (ai, y) 0))
  ∧ (dlookup s.e_a (ao, f) = dlookup st.e_a (ao, f)
      ∨ dlookup s.e_a (ao, f) = some (tEa st ai ao f))
  ∧ (dlookup s.is_bid ao = dlookup st.is_bid ao
      ∨ dlookup s.is_bid ao = some (tIb st ai ao))

theorem tEa_written (st s : ArcState) (ai ao f : String)
    (hAe : dlookup s.e_a (ai, f) = dlookup st.e_a (ai, f))
    (hdis : dlookup s.e_a (ao, f) = dlookup st.e_a (ao, f)
      ∨ dlookup s.e_a (ao, f) = some (tEa st ai ao f)) :
    (dlookup s.e_a (ai, f)).getD ((dlookup s.e_a (ao, f)).getD 1) = tEa st ai ao f := by
  rw [hAe]
  rcases hdis with hd | hd
  · rw [hd]
    rfl
  · rw [hd]
    show (dlookup st.e_a (ai, f)).getD (tEa st ai ao f) = tEa st ai ao f
    unfold tEa
    exact getD_self_stable _ _

theorem tIb_written (st s : ArcState) (ai ao : String)
    (hAb : dlookup s.is_bid ai = dlookup st.is_bid ai)
    (hdis : dlookup s.is_bid ao = dlookup st.is_bid ao
      ∨ dlookup s.is_bid ao = some (tIb st ai ao)) :
    (dlookup s.is_bid ai).getD ((dlookup s.is_bid ao).getD 0) = tIb st ai ao := by
  rw [hAb]
  rcases hdis with hd | hd
  · rw [hd]
    rfl
  · rw [hd]
    show (dlookup st.is_bid ai).getD (tIb st ai ao) = tIb st ai ao
    unfold tIb
    exact getD_self_stable _ _

theorem oppCell_targets (st : ArcState) (ai ao f : String) (y : Int)
    (f' : String) (y' : Int) (s : ArcState)
    (hA : agreeAt s st ai) (htg : oppTargets st ai ao f y s) :
    oppTargets st ai ao f y (oppCell ai ao f' y' s) := by
  unfold oppCell
  by_cases hfire : 0 < dgetD s.c_a (ai, f', y') 0 ∧ dgetD s.c_a (ao, f', y') 0 ≤ oppTol
  case neg =>
    rw [if_neg hfire]
    exact htg
  case pos =>
  rw [if_pos hfire]
  have gca : dgetD s.c_a (ai, f', y') 0 = dgetD st.c_a (ai, f', y') 0 := by
    unfold dgetD
    rw [hA.1 f' y']
  have gcax : dgetD s.c_ax (ai, f', y') 0 = dgetD st.c_ax (ai, f', y') 0 := by
    unfold dgetD
    rw [hA.2.1 f' y']
  have gcab : dgetD s.c_ab (ai, f', y') 0 = dgetD st.c_ab (ai, f', y') 0 := by
    unfold dgetD
    rw [hA.2.2.1 f' y']
  have gfab : dgetD s.f_ab (ai, y') 0 = dgetD st.f_ab (ai, y') 0 := by
    unfold dgetD
    rw [hA.2.2.2.1 y']
  refine ⟨?_, ?_, ?_, ?_, ?_, ?_⟩
  · by_cases hk : ((ao, f, y) : String × String × Int) = (ao, f', y')
    case pos =>
      have hf2 : f = f' := congrArg (fun p => p.2.1) hk
      have hy2 : y = y' := congrArg (fun p => p.2.2) hk
      subst hf2
      subst hy2
      show dlookup (dinsert s.c_a (ao, f, y) (dgetD s.c_a (ai, f, y) 0)) (ao, f, y) = _
      rw [dlookup_dinsert_self, gca]
    case neg =>
      show dlookup (dinsert s.c_a (ao, f', y') (dgetD s.c_a (ai, f', y') 0)) (ao, f, y) = _
      rw [dlookup_dinsert_ne _ _ _ _ hk]
      exact htg.1
  · by_cases hk : ((ao, f, y) : String × String × Int) = (ao, f', y')
    case pos =>
      have hf2 : f = f' := congrArg (fun p => p.2.1) hk
      have hy2 : y = y' := congrArg (fun p => p.2.2) hk
      subst hf2
      subst hy2
      show dlookup (dinsert s.c_ax (ao, f, y) (dgetD s.c_ax (ai, f, y) 0)) (ao, f, y) = _
      rw [dlookup_dinsert_self, gcax]
    case neg =>
      show dlookup (dinsert s.c_ax (ao, f', y') (dgetD s.c_ax (ai, f', y') 0)) (ao, f, y) = _
      rw [dlookup_dinsert_ne _ _ _ _ hk]
      exact htg.2.1
  · by_cases hk : ((ao, f, y) : String × String × Int) = (ao, f', y')
    case pos =>
      have hf2 : f = f' := congrArg (fun p => p.2.1) hk
      have hy2 : y = y' := congrArg (fun p => p.2.2) hk
      subst hf2
      subst hy2
      show dlookup (dinsert s.c_ab (ao, f, y) (dgetD s.c_ab (ai, f, y) 0)) (ao, f, y) = _
      rw [dlookup_dinsert_self, gcab]
    case neg =>
      show dlookup (dinsert s.c_ab (ao, f', y') (dgetD s.c_ab (ai, f', y') 0)) (ao, f, y) = _
      rw [dlookup_dinsert_ne _ _ _ _ hk]
      exact htg.2.2.1
  · by_cases hk : ((ao, y) : String × Int) = (ao, y')
    case pos =>
      have hy2 : y = y' := congrArg (fun p => p.2) hk
      subst hy2
      show dlookup (dinsert s.f_ab (ao, y) (dgetD s.f_ab (ai, y) 0)) (ao, y) = _
      rw [dlookup_dinsert_self, gfab]
    case neg =>
      show dlookup (dinsert s.f_ab (ao, y') (dgetD s.f_ab (ai, y') 0)) (ao, y) = _
      rw [dlookup_dinsert_ne _ _ _ _ hk]
      exact htg.2.2.2.1
  · by_cases hk : ((ao, f) : String × String) = (ao, f')
    case pos =>
      have hf2 : f = f' := congrArg (fun p => p.2) hk
      subst hf2
      show dlookup (dinsert s.e_a (ao, f)
          ((dlookup s.e_a (ai, f)).getD ((dlookup s.e_a (ao, f)).getD 1))) (ao, f) = _
      rw [dlookup_dinsert_self,
        tEa_written st s ai ao f (hA.2.2.2.2.1 f) (Or.inr htg.2.2.2.2.1)]
    case neg =>
      show dlookup (dinsert s.e_a (ao, f')
          ((dlookup s.e_a (ai, f')).getD ((dlookup s.e_a (ao, f')).getD 1))) (ao, f) = _
      rw [dlookup_dinsert_ne _ _ _ _ hk]
      exact htg.2.2.2.2.1
  · show dlookup (dinsert s.is_bid ao
        ((dlookup s.is_bid ai).getD ((dlookup s.is_bid ao).getD 0))) ao = _
    rw [dlookup_dinsert_self,
      tIb_written st s ai ao hA.2.2.2.2.2 (Or.inr htg.2.2.2.2.2)]

theorem oppCell_inv (st : ArcState) (ai ao f : String) (y : Int)
    (f' : String) (y' : Int) (s : ArcState)
    (hA : agreeAt s st ai) (hD : oppPre st ai ao f y s ∨ oppTargets st ai ao f y s) :
    oppPre st ai ao f y (oppCell ai ao f' y' s)
    ∨ oppTargets st ai ao f y (oppCell ai ao f' y' s) := by
  rcases hD with hpre | htg
  case inr =>
    exact Or.inr (oppCell_targets st ai ao f y f' y' s hA htg)
  case inl =>
  unfold oppCell
  by_cases hfire : 0 < dgetD s.c_a (ai, f', y') 0 ∧ dgetD s.c_a (ao, f', y') 0 ≤ oppTol
  case neg =>
    rw [if_neg hfire]
    exact Or.inl hpre
  case pos =>
  rw [if_pos hfire]
  have gca : dgetD s.c_a (ai, f', y') 0 = dgetD st.c_a (ai, f', y') 0 := by
    unfold dgetD
    rw [hA.1 f' y']
  have gcax : dgetD s.c_ax (ai, f', y') 0 = dgetD st.c_ax (ai, f', y') 0 := by
    unfold dgetD
    rw [hA.2.1 f' y']
  have gcab : dgetD s.c_ab (ai, f', y') 0 = dgetD st.c_ab (ai, f', y') 0 := by
    unfold dgetD
    rw [hA.2.2.1 f' y']
  have gfab : dgetD s.f_ab (ai, y') 0 = dgetD st.f_ab (ai, y') 0 := by
    unfold dgetD
    rw [hA.2.2.2.1 y']
  by_cases hff : f = f'
  case pos =>
    subst hff
    by_cases hyy : y = y'
    case pos =>
      subst hyy
      right
      refine ⟨?_, ?_, ?_, ?_, ?_, ?_⟩
      · show dlookup (dinsert s.c_a (ao, f, y) (dgetD s.c_a (ai, f, y) 0)) (ao, f, y) = _
        rw [dlookup_dinsert_self, gca]
      · show dlookup (dinsert s.c_ax (ao, f, y) (dgetD s.c_ax (ai, f, y) 0)) (ao, f, y) = _
        rw [dlookup_dinsert_self, gcax]
      · show dlookup (dinsert s.c_ab (ao, f, y) (dgetD s.c_ab (ai, f, y) 0)) (ao, f, y) = _
        rw [dlookup_dinsert_self, gcab]
      · show dlookup (dinsert s.f_ab (ao, y) (dgetD s.f_ab (ai, y) 0)) (ao, y) = _
        rw [dlookup_dinsert_self, gfab]
      · show dlookup (dinsert s.e_a (ao, f)
            ((dlookup s.e_a (ai, f)).getD ((dlookup s.e_a (ao, f)).getD 1))) (ao, f) = _
        rw [dlookup_dinsert_self,
          tEa_written st s ai ao f (hA.2.2.2.2.1 f) hpre.2.2.2.2.1]
      · show dlookup (dinsert s.is_bid ao
            ((dlookup s.is_bid ai).getD ((dlookup s.is_bid ao).getD 0))) ao = _
        rw [dlookup_dinsert_self,
          tIb_written st s ai ao hA.2.2.2.2.2 hpre.2.2.2.2.2]
    case neg =>
      left
      have k3 : ((ao, f, y) : String × String × Int) ≠ (ao, f, y') :=
        fun hk => hyy (congrArg (fun p => p.2.2) hk)
      have k2 : ((ao, y) : String × Int) ≠ (ao, y') :=
        fun hk => hyy (congrArg (fun p => p.2) hk)
      refine ⟨?_, ?_, ?_, ?_, ?_, ?_⟩
      · show dlookup (dinsert s.c_a (ao, f, y') (dgetD s.c_a (ai, f, y') 0)) (ao, f, y) = _
        rw [dlookup_dinsert_ne _ _ _ _ k3]
        exact hpre.1
      · show dlookup (dinsert s.c_ax (ao, f, y') (dgetD s.c_ax (ai, f, y') 0)) (ao, f, y) = _
        rw [dlookup_dinsert_ne _ _ _ _ k3]
        exact hpre.2.1
      · show dlookup (dinsert s.c_ab (ao, f, y') (dgetD s.c_ab (ai, f, y') 0)) (ao, f, y) = _
        rw [dlookup_dinsert_ne _ _ _ _ k3]
        exact hpre.2.2.1
      · show dlookup (dinsert s.f_ab (ao, y') (dgetD s.f_ab (ai, y') 0)) (ao, y) = _
            ∨ dlookup (dinsert s.f_ab (ao, y') (dgetD s.f_ab (ai, y') 0)) (ao, y) = _
        rw [dlookup_dinsert_ne _ _ _ _ k2]
        exact hpre.2.2.2.1
      · show dlookup (dinsert s.e_a (ao, f)
            ((dlookup s.e_a (ai, f)).getD ((dlookup s.e_a (ao, f)).getD 1))) (ao, f) = _ ∨ _
        right
        rw [dlookup_dinsert_self,
          tEa_written st s ai ao f (hA.2.2.2.2.1 f) hpre.2.2.2.2.1]
      · show dlookup (dinsert s.is_bid ao
            ((dlookup s.is_bid ai).getD ((dlookup s.is_bid ao).getD 0))) ao = _ ∨ _
        right
        rw [dlookup_dinsert_self,
          tIb_written st s ai ao hA.2.2.2.2.2 hpre.2.2.2.2.2]
  case neg =>
    have k3 : ((ao, f, y) : String × String × Int) ≠ (ao, f', y') :=
      fun hk => hff (congrArg (fun p => p.2.1) hk)
    have k1 : ((ao, f) : String × String) ≠ (ao, f') :=
      fun hk => hff (congrArg (fun p => p.2) hk)
    left
    refine ⟨?_, ?_, ?_, ?_, ?_, ?_⟩
    · show dlookup (dinsert s.c_a (ao, f', y') (dgetD s.c_a (ai, f', y') 0)) (ao, f, y) = _
      rw [dlookup_dinsert_ne _ _ _ _ k3]
      exact hpre.1
    · show dlookup (dinsert s.c_ax (ao, f', y') (dgetD s.c_ax (ai, f', y') 0)) (ao, f, y) = _
      rw [dlookup_dinsert_ne _ _ _ _ k3]
      exact hpre.2.1
    · show dlookup (dinsert s.c_ab (ao, f', y') (dgetD s.c_ab (ai, f', y') 0)) (ao, f, y) = _
      rw [dlookup_dinsert_ne _ _ _ _ k3]
      exact hpre.2.2.1
    · by_cases hyy : y = y'
      case pos =>
        subst hyy
        right
        show dlookup (dinsert s.f_ab (ao, y) (dgetD s.f_ab (ai, y) 0)) (ao, y) = _
        rw [dlookup_dinsert_self, gfab]
      case neg =>
        have k2 : ((ao, y) : String × Int) ≠ (ao, y') :=
          fun hk => hyy (congrArg (fun p => p.2) hk)
        show dlookup (dinsert s.f_ab (ao, y') (dgetD s.f_ab (ai, y') 0)) (ao, y) = _ ∨ _
        rw [dlookup_dinsert_ne _ _ _ _ k2]
        exact hpre.2.2.2.1
    · show dlookup (dinsert s.e_a (ao, f')
          ((dlookup s.e_a (ai, f')).getD ((dlookup s.e_a (ao, f')).getD 1))) (ao, f) = _ ∨ _
      rw [dlookup_dinsert_ne _ _ _ _ k1]
      exact hpre.2.2.2.2.1
    · right
      show dlookup (dinsert s.is_bid ao
          ((dlookup s.is_bid ai).getD ((dlookup s.is_bid ao).getD 0))) ao = _
      rw [dlookup_dinsert_self,
        tIb_written st s ai ao hA.2.2.2.2.2 hpre.2.2.2.2.2]

/-- `oppTargets` transports along agreement at `ao`. -/
theorem oppTargets_of_agree (st : ArcState) (ai ao f : String) (y : Int)
    {s s2 : ArcState} (hag : agreeAt s2 s ao) (h : oppTargets st ai ao f y s) :
    oppTargets st ai ao f y s2 :=
  ⟨(hag.1 f y).trans h.1, (hag.2.1 f y).trans h.2.1, (hag.2.2.1 f y).trans h.2.2.1,
    (hag.2.2.2.1 y).trans h.2.2.2.1, (hag.2.2.2.2.1 f).trans h.2.2.2.2.1,
    hag.2.2.2.2.2.trans h.2.2.2.2.2⟩

/-- `oppPre` transports along agreement at `ao`. -/
theorem oppPre_of_agree (st : ArcState) (ai ao f : String) (y : Int)
    {s s2 : ArcState} (hag : agreeAt s2 s ao) (h : oppPre st ai ao f y s) :
    oppPre st ai ao f y s2 := by
  refine ⟨(hag.1 f y).trans h.1, (hag.2.1 f y).trans h.2.1, (hag.2.2.1 f y).trans h.2.2.1,
    ?_, ?_, ?_⟩
  · rcases h.2.2.2.1 with hd | hd
    · exact Or.inl ((hag.2.2.2.1 y).trans hd)
    · exact Or.inr ((hag.2.2.2.1 y).trans hd)
  · rcases h.2.2.2.2.1 with hd | hd
    · exact Or.inl ((hag.2.2.2.2.1 f).trans hd)
    · exact Or.inr ((hag.2.2.2.2.1 f).trans hd)
  · rcases h.2.2.2.2.2 with hd | hd
    · exact Or.inl (hag.2.2.2.2.2.trans hd)
    · exact Or.inr (hag.2.2.2.2.2.trans hd)

/-- At the designated cell `(f, y)` the propagation body fires (or has already
fired) and leaves the reverse arc holding the forward arc's values. -/
theorem oppCell_fire (st : ArcState) (ai ao f : String) (y : Int) (s : ArcState)
    (hA : agreeAt s st ai)
    (hD : oppPre st ai ao f y s ∨ oppTargets st ai ao f y s)
    (hfw : 0 < dgetD st.c_a (ai, f, y) 0)
    (hrev : dgetD st.c_a (ao, f, y) 0 ≤ 0) :
    oppTargets st ai ao f y (oppCell ai ao f y s) := by
  rcases hD with hpre | htg
  case inr =>
    exact oppCell_targets st ai ao f y f y s hA htg
  case inl =>
  have gca : dgetD s.c_a (ai, f, y) 0 = dgetD st.c_a (ai, f, y) 0 := by
    unfold dgetD
    rw [hA.1 f y]
  have gcax : dgetD s.c_ax (ai, f, y) 0 = dgetD st.c_ax (ai, f, y) 0 := by
    unfold dgetD
    rw [hA.2.1 f y]
  have gcab : dgetD s.c_ab (ai, f, y) 0 = dgetD st.c_ab (ai, f, y) 0 := by
    unfold dgetD
    rw [hA.2.2.1 f y]
  have gfab : dgetD s.f_ab (ai, y) 0 = dgetD st.f_ab (ai, y) 0 := by
    unfold dgetD
    rw [hA.2.2.2.1 y]
  have gco : dgetD s.c_a (ao, f, y) 0 = dgetD st.c_a (ao, f, y) 0 := by
    unfold dgetD
    rw [hpre.1]
  have hfire : 0 < dgetD s.c_a (ai, f, y) 0 ∧ dgetD s.c_a (ao, f, y) 0 ≤ oppTol := by
    constructor
    · rw [gca]
      exact hfw
    · rw [gco]
      exact le_trans hrev oppTol_nonneg
  unfold oppCell
  rw [if_pos hfire]
  refine ⟨?_, ?_, ?_, ?_, ?_, ?_⟩
  · show dlookup (dinsert s.c_a (ao, f, y) (dgetD s.c_a (ai, f, y) 0)) (ao, f, y) = _
    rw [dlookup_dinsert_self, gca]
  · show dlookup (dinsert s.c_ax (ao, f, y) (dgetD s.c_ax (ai, f, y) 0)) (ao, f, y) = _
    rw [dlookup_dinsert_self, gcax]
  · show dlookup (dinsert s.c_ab (ao, f, y) (dgetD s.c_ab (ai, f, y) 0)) (ao, f, y) = _
    rw [dlookup_dinsert_self, gcab]
  · show dlookup (dinsert s.f_ab (ao, y) (dgetD s.f_ab (ai, y) 0)) (ao, y) = _
    rw [dlookup_dinsert_self, gfab]
  · show dlookup (dinsert s.e_a (ao, f)
        ((dlookup s.e_a (ai, f)).getD ((dlookup s.e_a (ao, f)).getD 1))) (ao, f) = _
    rw [dlookup_dinsert_self,
      tEa_written st s ai ao f (hA.2.2.2.2.1 f) hpre.2.2.2.2.1]
  · show dlookup (dinsert s.is_bid ao
        ((dlookup s.is_bid ai).getD ((dlookup s.is_bid ao).getD 0))) ao = _
    rw [dlookup_dinsert_self,
      tIb_written st s ai ao hA.2.2.2.2.2 hpre.2.2.2.2.2]

/-- Running the pair body for `(ai, ao)` establishes the inherited values at
the designated cell `(f, y)` while keeping agreement with the start state on
the forward arc `ai`. -/
theorem oppPair_establish (st : ArcState) (ai ao f : String) (y : Int)
    (F : List String) (Ys : List Int) (hf : f ∈ F) (hy : y ∈ Ys) (hao : ai ≠ ao)
    (hfw : 0 < dgetD st.c_a (ai, f, y) 0)
    (hrev : dgetD st.c_a (ao, f, y) 0 ≤ 0)
    (s : ArcState) (hA : agreeAt s st ai)
    (hD : oppPre st ai ao f y s ∨ oppTargets st ai ao f y s) :
    agreeAt (oppPair F Ys ai ao s) st ai
    ∧ oppTargets st ai ao f y (oppPair F Ys ai ao s) := by
  unfold oppPair
  refine foldl_through_all
    (fun s2 => agreeAt s2 st ai ∧ (oppPre st ai ao f y s2 ∨ oppTargets st ai ao f y s2))
    (fun s2 => agreeAt s2 st ai ∧ oppTargets st ai ao f y s2)
    _ f F hf ?_ ?_ ?_ s ⟨hA, hD⟩
  · intro f2 _ s2 hs2
    refine foldl_preserve
      (fun s3 => agreeAt s3 st ai ∧ (oppPre st ai ao f y s3 ∨ oppTargets st ai ao f y s3))
      _ Ys ?_ s2 hs2
    intro y2 _ s3 hs3
    exact ⟨agreeAt_trans (oppCell_frame ai ao f2 y2 s3 ai hao) hs3.1,
      oppCell_inv st ai ao f y f2 y2 s3 hs3.1 hs3.2⟩
  · intro s2 hs2
    refine foldl_through_all
      (fun s3 => agreeAt s3 st ai ∧ (oppPre st ai ao f y s3 ∨ oppTargets st ai ao f y s3))
      (fun s3 => agreeAt s3 st ai ∧ oppTargets st ai ao f y s3)
      (fun s3 y2 => oppCell ai ao f y2 s3) y Ys hy ?_ ?_ ?_ s2 hs2
    · intro y2 _ s3 hs3
      exact ⟨agreeAt_trans (oppCell_frame ai ao f y2 s3 ai hao) hs3.1,
        oppCell_inv st ai ao f y f y2 s3 hs3.1 hs3.2⟩
    · intro s3 hs3
      exact ⟨agreeAt_trans (oppCell_frame ai ao f y s3 ai hao) hs3.1,
        oppCell_fire st ai ao f y s3 hs3.1 hs3.2 hfw hrev⟩
    · intro y2 _ s3 hs3
      exact ⟨agreeAt_trans (oppCell_frame ai ao f y2 s3 ai hao) hs3.1,
        oppCell_targets st ai ao f y f y2 s3 hs3.1 hs3.2⟩
  · intro f2 _ s2 hs2
    refine foldl_preserve
      (fun s3 => agreeAt s3 st ai ∧ oppTargets st ai ao f y s3)
      _ Ys ?_ s2 hs2
    intro y2 _ s3 hs3
    exact ⟨agreeAt_trans (oppCell_frame ai ao f2 y2 s3 ai hao) hs3.1,
      oppCell_targets st ai ao f y f2 y2 s3 hs3.1 hs3.2⟩

/-- The full opposite-arc pass (lines 645-657) writes the forward arc's values
onto the reverse arc at the designated cell, under mutual uniqueness of the
opposite relation around the pair and non-positive reverse costs. -/
theorem oppPass_establish (A F : List String) (Ys : List Int)
    (opp : List ((String × String) × Int)) (st : ArcState)
    (ai ao f : String) (y : Int)
    (hndA : A.Nodup) (haiA : ai ∈ A) (haoA : ao ∈ A) (hao : ai ≠ ao)
    (hopp : dgetD opp (ai, ao) 0 = 1)
    (hexcl1 : ∀ x ∈ A, dgetD opp (x, ao) 0 = 1 → x = ai)
    (hexcl2 : ∀ x ∈ A, dgetD opp (x, ai) 0 = 1 → x = ao)
    (hrevAll : ∀ f2 ∈ F, ∀ y2 ∈ Ys, dgetD st.c_a (ao, f2, y2) 0 ≤ 0)
    (hf : f ∈ F) (hy : y ∈ Ys)
    (hfw : 0 < dgetD st.c_a (ai, f, y) 0) :
    oppTargets st ai ao f y (oppPass A F Ys opp st) := by
  have hrev0 : dgetD st.c_a (ao, f, y) 0 ≤ 0 := hrevAll f hf y hy
  unfold oppPass
  refine foldl_through
    (fun s => agreeAt s st ai ∧ agreeAt s st ao)
    (fun s => oppTargets st ai ao f y s)
    (oppOuterStep A F Ys opp) ai A haiA hndA ?_ ?_ ?_ st
    ⟨agreeAt_refl st ai, agreeAt_refl st ao⟩
  · -- agreement with the start state survives every outer step before `ai`
    intro x hxA hxai s hs
    unfold oppOuterStep
    refine foldl_preserve
      (fun s2 => agreeAt s2 st ai ∧ agreeAt s2 st ao) _ A ?_ s hs
    intro z _ s2 hs2
    by_cases hg : dgetD opp (x, z) 0 = 1
    case neg =>
      rw [if_neg hg]
      exact hs2
    case pos =>
      rw [if_pos hg]
      by_cases hxo : x = ao
      case pos =>
        have hno : ∀ f2 ∈ F, ∀ y2 ∈ Ys, dgetD s2.c_a (x, f2, y2) 0 ≤ 0 := by
          intro f2 hf2 y2 hy2
          rw [hxo]
          show dgetD s2.c_a (ao, f2, y2) 0 ≤ 0
          unfold dgetD
          rw [hs2.2.1 f2 y2]
          have h0 := hrevAll f2 hf2 y2 hy2
          unfold dgetD at h0
          exact h0
        rw [oppPair_nofire F Ys x z s2 hno]
        exact hs2
      case neg =>
        have hzao : z ≠ ao := fun he => hxai (hexcl1 x hxA (by rw [← he]; exact hg))
        have hzai : z ≠ ai := fun he => hxo (hexcl2 x hxA (by rw [← he]; exact hg))
        exact ⟨agreeAt_trans (oppPair_frame F Ys x z s2 ai hzai.symm) hs2.1,
          agreeAt_trans (oppPair_frame F Ys x z s2 ao hzao.symm) hs2.2⟩
  · -- the outer step at `ai` establishes the inherited values
    intro s hs
    unfold oppOuterStep
    have hbase : agreeAt s st ai ∧ (oppPre st ai ao f y s ∨ oppTargets st ai ao f y s) :=
      ⟨hs.1, Or.inl ⟨hs.2.1 f y, hs.2.2.1 f y, hs.2.2.2.1 f y,
        Or.inl (hs.2.2.2.2.1 y), Or.inl (hs.2.2.2.2.2.1 f), Or.inl hs.2.2.2.2.2.2⟩⟩
    refine (foldl_through
      (fun s2 => agreeAt s2 st ai ∧ (oppPre st ai ao f y s2 ∨ oppTargets st ai ao f y s2))
      (fun s2 => agreeAt s2 st ai ∧ oppTargets st ai ao f y s2)
      (fun s2 z => if dgetD opp (ai, z) 0 = 1 then oppPair F Ys ai z s2 else s2)
      ao A haoA hndA ?_ ?_ ?_ s hbase).2
    · intro z _ hzao s2 hs2
      dsimp only
      by_cases hg : dgetD opp (ai, z) 0 = 1
      case neg =>
        rw [if_neg hg]
        exact hs2
      case pos =>
        rw [if_pos hg]
        have hzai : z ≠ ai := fun he => hao (hexcl2 ai haiA (by rw [he] at hg; exact hg))
        have hfo : agreeAt (oppPair F Ys ai z s2) s2 ao := oppPair_frame F Ys ai z s2 ao hzao.symm
        refine ⟨agreeAt_trans (oppPair_frame F Ys ai z s2 ai hzai.symm) hs2.1, ?_⟩
        rcases hs2.2 with hpre | htg
        · exact Or.inl (oppPre_of_agree st ai ao f y hfo hpre)
        · exact Or.inr (oppTargets_of_agree st ai ao f y hfo htg)
    · intro s2 hs2
      dsimp only
      rw [if_pos hopp]
      exact oppPair_establish st ai ao f y F Ys hf hy hao hfw hrev0 s2 hs2.1 hs2.2
    · intro z _ hzao s2 hs2
      dsimp only
      by_cases hg : dgetD opp (ai, z) 0 = 1
      case neg =>
        rw [if_neg hg]
        exact hs2
      case pos =>
        rw [if_pos hg]
        have hzai : z ≠ ai := fun he => hao (hexcl2 ai haiA (by rw [he] at hg; exact hg))
        exact ⟨agreeAt_trans (oppPair_frame F Ys ai z s2 ai hzai.symm) hs2.1,
          oppTargets_of_agree st ai ao f y (oppPair_frame F Ys ai z s2 ao hzao.symm) hs2.2⟩
  · -- inherited values survive every outer step after `ai`
    intro x hxA hxai s hs
    unfold oppOuterStep
    refine foldl_preserve (fun s2 => oppTargets st ai ao f y s2) _ A ?_ s hs
    intro z _ s2 hs2
    by_cases hg : dgetD opp (x, z) 0 = 1
    case neg =>
      rw [if_neg hg]
      exact hs2
    case pos =>
      rw [if_pos hg]
      have hzao : z ≠ ao := fun he => hxai (hexcl1 x hxA (by rw [← he]; exact hg))
      exact oppTargets_of_agree st ai ao f y (oppPair_frame F Ys x z s2 ao hzao.symm) hs2

/-- `oppTargets` transports along equality of the six relevant dictionaries. -/
theorem oppTargets_of_fields (st : ArcState) (ai ao f : String) (y : Int)
    {s s2 : ArcState}
    (h1 : s2.c_a = s.c_a) (h2 : s2.c_ax = s.c_ax) (h3 : s2.c_ab = s.c_ab)
    (h4 : s2.f_ab = s.f_ab) (h5 : s2.e_a = s.e_a) (h6 : s2.is_bid = s.is_bid)
    (h : oppTargets st ai ao f y s) : oppTargets st ai ao f y s2 := by
  unfold oppTargets at h ⊢
  rw [h1, h2, h3, h4, h5, h6]
  exact h

/-- The repurposing pass only writes `c_ar`/`f_ar`, so the inherited arc values
survive it. -/
theorem repPass_targets (A F : List String) (Ys : List Int)
    (opp : List ((String × String) × Int)) (st : ArcState)
    (ai ao f : String) (y : Int) (s : ArcState)
    (h : oppTargets st ai ao f y s) :
    oppTargets st ai ao f y (repPass A F Ys opp s) := by
  unfold repPass
  refine foldl_preserve (fun s2 => oppTargets st ai ao f y s2) _ A ?_ s h
  intro x _ s2 hs2
  refine foldl_preserve (fun s3 => oppTargets st ai ao f y s3) _ A ?_ s2 hs2
  intro z _ s3 hs3
  dsimp only
  by_cases hg : dgetD opp (x, z) 0 = 1
  case neg =>
    rw [if_neg hg]
    exact hs3
  case pos =>
    rw [if_pos hg]
    unfold repPair
    refine foldl_preserve (fun s4 => oppTargets st ai ao f y s4) _ F ?_ s3 hs3
    intro e _ s4 hs4
    refine foldl_preserve (fun s5 => oppTargets st ai ao f y s5) _ F ?_ s4 hs4
    intro f2 _ s5 hs5
    refine foldl_preserve (fun s6 => oppTargets st ai ao f y s6) _ Ys ?_ s5 hs5
    intro y2 _ s6 hs6
    show oppTargets st ai ao f y (repCell x z e f2 y2 s6)
    unfold repCell
    split
    · exact oppTargets_of_fields st ai ao f y rfl rfl rfl rfl rfl rfl hs6
    · exact hs6

/-- The `setdefault` completion never overwrites an existing entry, so the
inherited arc values survive it. -/
theorem defaultsPass_targets (A F : List String) (Ys : List Int) (st : ArcState)
    (ai ao f : String) (y : Int) (s : ArcState)
    (h : oppTargets st ai ao f y s) :
    oppTargets st ai ao f y (defaultsPass A F Ys s) := by
  unfold defaultsPass
  refine foldl_preserve (fun s2 => oppTargets st ai ao f y s2) _ A ?_ s h
  intro a _ s2 hs2
  show oppTargets st ai ao f y (defaultsStep F Ys s2 a)
  have hInner1 : ∀ (f2 : String) (s3 : ArcState), oppTargets st ai ao f y s3 →
      oppTargets st ai ao f y (defaultsInner1 Ys a f2 s3) := by
    intro f2 s3 hs3
    unfold defaultsInner1
    refine foldl_preserve (fun s4 => oppTargets st ai ao f y s4) _ Ys ?_ s3 hs3
    intro y2 _ s4 hs4
    exact ⟨dlookup_dsetd_of_some _ _ _ _ _ hs4.1,
      dlookup_dsetd_of_some _ _ _ _ _ hs4.2.1,
      dlookup_dsetd_of_some _ _ _ _ _ hs4.2.2.1,
      dlookup_dsetd_of_some _ _ _ _ _ hs4.2.2.2.1,
      hs4.2.2.2.2.1, hs4.2.2.2.2.2⟩
  have h1 : oppTargets st ai ao f y { s2 with is_bid := dsetd s2.is_bid a 0 } :=
    ⟨hs2.1, hs2.2.1, hs2.2.2.1, hs2.2.2.2.1, hs2.2.2.2.2.1,
      dlookup_dsetd_of_some _ _ _ _ _ hs2.2.2.2.2.2⟩
  have h2 : oppTargets st ai ao f y
      (F.foldl (fun s3 f2 => defaultsInner1 Ys a f2 { s3 with e_a := dsetd s3.e_a (a, f2) 1 })
        { s2 with is_bid := dsetd s2.is_bid a 0 }) := by
    refine foldl_preserve (fun s3 => oppTargets st ai ao f y s3) _ F ?_ _ h1
    intro f2 _ s3 hs3
    refine hInner1 f2 _ ?_
    exact ⟨hs3.1, hs3.2.1, hs3.2.2.1, hs3.2.2.2.1,
      dlookup_dsetd_of_some _ _ _ _ _ hs3.2.2.2.2.1, hs3.2.2.2.2.2⟩
  show oppTargets st ai ao f y
      (F.foldl (fun s3 e => defaultsInner2 F Ys a e s3)
        (F.foldl (fun s3 f2 => defaultsInner1 Ys a f2 { s3 with e_a := dsetd s3.e_a (a, f2) 1 })
          { s2 with is_bid := dsetd s2.is_bid a 0 }))
  refine foldl_preserve (fun s3 => oppTargets st ai ao f y s3) _ F ?_ _ h2
  intro e _ s3 hs3
  show oppTargets st ai ao f y (defaultsInner2 F Ys a e s3)
  unfold defaultsInner2
  refine foldl_preserve (fun s4 => oppTargets st ai ao f y s4) _ F ?_ s3 hs3
  intro f2 _ s4 hs4
  refine foldl_preserve (fun s5 => oppTargets st ai ao f y s5) _ Ys ?_ s4 hs4
  intro y2 _ s5 hs5
  exact hs5

/-- The self-repurposing zeroing only writes `c_ar`/`f_ar`, so the inherited
arc values survive it. -/
theorem selfZeroPass_targets (A F : List String) (Ys : List Int) (st : ArcState)
    (ai ao f : String) (y : Int) (s : ArcState)
    (h : oppTargets st ai ao f y s) :
    oppTargets st ai ao f y (selfZeroPass A F Ys s) := by
  unfold selfZeroPass
  refine foldl_preserve (fun s2 => oppTargets st ai ao f y s2) _ A ?_ s h
  intro a _ s2 hs2
  show oppTargets st ai ao f y (selfZeroStep F Ys s2 a)
  unfold selfZeroStep
  refine foldl_preserve (fun s3 => oppTargets st ai ao f y s3) _ F ?_ s2 hs2
  intro e _ s3 hs3
  refine foldl_preserve (fun s4 => oppTargets st ai ao f y s4) _ Ys ?_ s3 hs3
  intro y2 _ s4 hs4
  exact hs4

/-- C1 (amended): opposite-arc inheritance through the full extraction
pipeline. For a pair `(ai, ao)` with `opp(ai,ao) = 1` that is mutually unique
(`ai` is the only arc declared opposite to `ao` and `ao` the only arc declared
opposite to `ai`), if before propagation every `c_a(ao,·,·)` is non-positive
while `c_a(ai,f,y) > 0` at the cell `(f, y)`, then after all of
`_extract_arc_data`'s propagation, `setdefault` and self-zeroing passes the
reverse arc holds the forward arc's values: `c_a(ao,f,y)`, `c_ax(ao,f,y)`,
`c_ab(ao,f,y)` and `f_ab(ao,y)` equal the forward entries (defaulted to 0),
and `e_a(ao,f)` and `is_bid(ao)` equal the forward entries with the source's
fallback chains. Without the mutual-uniqueness hypotheses the claim is false
(`opposite_arc_inherit_refuted`). -/
theorem opposite_arc_inherits (A F : List String) (Ys : List Int)
    (opp : List ((String × String) × Int)) (st : ArcState)
    (ai ao f : String) (y : Int)
    (hndA : A.Nodup) (haiA : ai ∈ A) (haoA : ao ∈ A) (hao : ai ≠ ao)
    (hopp : dgetD opp (ai, ao) 0 = 1)
    (hexcl1 : ∀ x ∈ A, dgetD opp (x, ao) 0 = 1 → x = ai)
    (hexcl2 : ∀ x ∈ A, dgetD opp (x, ai) 0 = 1 → x = ao)
    (hrevAll : ∀ f2 ∈ F, ∀ y2 ∈ Ys, dgetD st.c_a (ao, f2, y2) 0 ≤ 0)
    (hf : f ∈ F) (hy : y ∈ Ys)
    (hfw : 0 < dgetD st.c_a (ai, f, y) 0) :
    oppTargets st ai ao f y (arcPasses A F Ys opp st) := by
  unfold arcPasses
  exact selfZeroPass_targets A F Ys st ai ao f y _
    (defaultsPass_targets A F Ys st ai ao f y _
      (repPass_targets A F Ys opp st ai ao f y _
        (oppPass_establish A F Ys opp st ai ao f y hndA haiA haoA hao hopp
          hexcl1 hexcl2 hrevAll hf hy hfw)))

/-- Start state for the inheritance witness: arc `P` costs 3 at `(G, 2025)`,
its opposite `Q` is unconfigured. -/
def wiSt : ArcState :=
  { cap_a := [], c_a := [(("P", "G", 2025), 3)], c_ax := [], c_ab := [],
    c_ar := [], f_ar := [], f_ab := [], e_a := [], is_bid := [] }

/-- Mutually unique opposite relation for the inheritance witness. -/
def wiOpp : List ((String × String) × Int) :=
  [(("P", "Q"), 1), (("Q", "P"), 1)]

set_option maxRecDepth 4000 in
/-- Witness for `opposite_arc_inherits` at the concrete mutually-opposite pair
`(P, Q)` with `c_a(P,G,2025) = 3`. -/
theorem opposite_arc_inherits_witness :
    oppTargets wiSt "P" "Q" "G" 2025 (arcPasses ["P", "Q"] ["G"] [2025] wiOpp wiSt) :=
  opposite_arc_inherits ["P", "Q"] ["G"] [2025] wiOpp wiSt "P" "Q" "G" 2025
    (by decide) (by decide) (by decide) (by decide) (by decide)
    (by decide) (by decide) (by decide) (by decide) (by decide) (by decide)
